import Mathlib

/-
  Verification of the context-extraction and prompt-construction pipeline of an
  LLM-based code-completion editor plugin.

  Text is modelled as `List Char` (named `Str` below).  JavaScript strings are
  UTF-16 code-unit sequences; for the inputs considered here (BMP characters)
  the two models agree, and `String.data` converts Lean string literals.

  The source code is regex-driven, so a small backtracking regular-expression
  engine is defined first.  It enumerates match alternatives in JavaScript's
  backtracking priority order (leftmost start, then alternation order, greedy
  quantifiers longest-first), which is exact for the pattern shapes used by the
  program (quantifiers only over single-character classes, so the enumeration
  is finite and structural).  `\s` and `\w` are modelled by their ASCII parts.
-/

namespace GCL

abbrev Str := List Char

/-- The open-brace character. -/
def lbr : Char := Char.ofNat 123

/-- The close-brace character. -/
def rbr : Char := Char.ofNat 125

/-- The single-quote character. -/
def sq : Char := Char.ofNat 39

/-- The double-quote character. -/
def dq : Char := Char.ofNat 34

/-- The backtick character. -/
def bq : Char := Char.ofNat 96

/-- The backslash character. -/
def bslash : Char := Char.ofNat 92

/-- JavaScript regex `\w`: ASCII letters, digits and underscore. -/
def isWordChar (c : Char) : Bool := c.isAlphanum || c == '_'

/-- JavaScript regex `\s`, restricted to its ASCII members. -/
def isSpaceChar (c : Char) : Bool :=
  c == ' ' || c == '\t' || c == '\n' || c == '\r' || c == Char.ofNat 11 || c == Char.ofNat 12

/-- Regular-expression abstract syntax, covering the constructs used by the
    source's patterns.  Quantifiers are restricted to single-character classes,
    which is all the source uses; `grp` records a capture group. -/
inductive Rx where
  | eps : Rx
  | lit : Str → Rx
  | cls : (Char → Bool) → Rx
  | seq : Rx → Rx → Rx
  | alt : Rx → Rx → Rx
  | starC : (Char → Bool) → Rx
  | plusC : (Char → Bool) → Rx
  | opt : Rx → Rx
  | grp : Nat → Rx → Rx
  | wb : Rx

/-- Capture assignment: group index to captured text. -/
abbrev Caps := List (Nat × Str)

/-- Matcher state: the previously consumed character (for `\b`) and the
    remaining input. -/
abbrev MState := Option Char × Str

/-- Word-boundary test between the previous character and the head of the
    remaining input (JavaScript `\b`). -/
def atWordBoundary (prev : Option Char) (s : Str) : Bool :=
  (match prev with | some c => isWordChar c | none => false)
    != (match s with | c :: _ => isWordChar c | [] => false)

/-- States reachable by consuming a run of characters satisfying `p`, listed
    from zero characters consumed upwards. -/
def runStates (p : Char → Bool) (prev : Option Char) (s : Str) : List MState :=
  (prev, s) :: (match s with
    | c :: r => if p c then runStates p (some c) r else []
    | [] => [])

/-- Last character of a literal, falling back to the previous character when
    the literal is empty. -/
def lastCharOf (l : Str) (prev : Option Char) : Option Char :=
  match l.getLast? with
  | some c => some c
  | none => prev

/-- All ways a regex can match a prefix of the remaining input, in JavaScript
    backtracking priority order (first element = the match JavaScript takes). -/
def mrun : Rx → Option Char → Str → List (Caps × MState)
  | .eps, prev, s => [([], (prev, s))]
  | .lit l, prev, s =>
      if l.isPrefixOf s then [([], (lastCharOf l prev, s.drop l.length))] else []
  | .cls p, _, s =>
      match s with
      | c :: r => if p c then [([], (some c, r))] else []
      | [] => []
  | .seq a b, prev, s =>
      (mrun a prev s).flatMap fun pr =>
        (mrun b pr.2.1 pr.2.2).map fun qr => (pr.1 ++ qr.1, qr.2)
  | .alt a b, prev, s => mrun a prev s ++ mrun b prev s
  | .starC p, prev, s => (runStates p prev s).reverse.map fun st => ([], st)
  | .plusC p, prev, s => ((runStates p prev s).reverse.dropLast).map fun st => ([], st)
  | .opt r, prev, s => mrun r prev s ++ [([], (prev, s))]
  | .grp i r, prev, s =>
      (mrun r prev s).map fun pr =>
        ((i, s.take (s.length - pr.2.2.length)) :: pr.1, pr.2)
  | .wb, prev, s => if atWordBoundary prev s then [([], (prev, s))] else []

/-- A successful leftmost match: start index, matched length, captures, and
    the matcher state just after the match. -/
structure RxMatch where
  start : Nat
  len : Nat
  caps : Caps
  after : MState

/-- Scan for the leftmost match at or after the current state; `base` is the
    absolute index of the current state in the original input. -/
def firstMatchAux (r : Rx) (prev : Option Char) (s : Str) (base : Nat) : Option RxMatch :=
  match mrun r prev s with
  | pr :: _ => some ⟨base, s.length - pr.2.2.length, pr.1, pr.2⟩
  | [] =>
      match s with
      | [] => none
      | c :: t => firstMatchAux r (some c) t (base + 1)

/-- Leftmost match of `r` in `text` (JavaScript `exec` without `lastIndex`). -/
def rxFirst (r : Rx) (text : Str) : Option RxMatch := firstMatchAux r none text 0

/-- JavaScript `regex.test(text)`. -/
def rxTest (r : Rx) (text : Str) : Bool := (rxFirst r text).isSome

/-- JavaScript `regex.test(text)` for a pattern anchored with `$`: some
    alternative of the match must consume the whole remaining input. -/
def rxTestEnd (r : Rx) (text : Str) : Bool :=
  ((mrun r none text).any fun pr => pr.2.2.isEmpty) ||
    (match text with
     | [] => false
     | c :: t => rxTestEndAux r (some c) t)
where
  rxTestEndAux (r : Rx) (prev : Option Char) (s : Str) : Bool :=
    ((mrun r prev s).any fun pr => pr.2.2.isEmpty) ||
      (match s with
       | [] => false
       | c :: t => rxTestEndAux r (some c) t)

/-- All matches of a global (`/g`) regex, as a JavaScript
    `while ((m = re.exec(text)) !== null)` loop collects them.  Every pattern
    used by the source matches at least one character, so each iteration
    strictly advances; `fuel` (always called with `text.length + 1`) bounds the
    iteration count and is never exhausted for such patterns.  A zero-length
    match stops the loop (the source would loop forever there). -/
def execAllAux (r : Rx) (fuel : Nat) (prev : Option Char) (s : Str) (base : Nat) :
    List RxMatch :=
  match fuel with
  | 0 => []
  | fuel + 1 =>
      match firstMatchAux r prev s base with
      | none => []
      | some m =>
          if m.len == 0 then []
          else m :: execAllAux r fuel m.after.1 m.after.2 (m.start + m.len)

/-- All matches of a global regex over `text`. -/
def rxExecAll (r : Rx) (text : Str) : List RxMatch :=
  execAllAux r (text.length + 1) none text 0

/-- Captured group `i` of a match (`undefined` groups give `none`). -/
def capGet (caps : Caps) (i : Nat) : Option Str :=
  (caps.find? fun pr => pr.1 == i).map fun pr => pr.2

/-- Captured group `i`, defaulted to the empty string (`match[i] || ''`). -/
def capGetD (caps : Caps) (i : Nat) : Str := (capGet caps i).getD []

/-- Sequence of regex fragments. -/
def rseq (l : List Rx) : Rx := l.foldr .seq .eps

/-- First-match-wins alternation of regex fragments (empty list never
    matches). -/
def ralt (l : List Rx) : Rx := l.foldr .alt (.cls fun _ => false)

/-- Literal fragment from a Lean string. -/
def rStr (s : String) : Rx := .lit s.data

/-- `\s*`. -/
def sp0 : Rx := .starC isSpaceChar

/-- `\s+`. -/
def sp1 : Rx := .plusC isSpaceChar

/-- `\w+` (no capture). -/
def w1 : Rx := .plusC isWordChar

/-- `(\w+)` as capture group `i`. -/
def wgrp (i : Nat) : Rx := .grp i (.plusC isWordChar)

/-- `[^)]*`. -/
def nrp0 : Rx := .starC fun c => c != ')'

/-- `\(` as a fragment. -/
def rLp : Rx := .lit ['(']

/-- `\)` as a fragment. -/
def rRp : Rx := .lit [')']

/-- Literal open brace. -/
def rOb : Rx := .lit [lbr]

/-- Literal close brace. -/
def rCb : Rx := .lit [rbr]

/-! ### String helpers (JavaScript string methods over `Str`) -/

/-- JavaScript `String.prototype.trim` (whitespace modelled by
    `isSpaceChar`). -/
def trimL (s : Str) : Str :=
  ((s.dropWhile isSpaceChar).reverse.dropWhile isSpaceChar).reverse

/-- JavaScript `s.startsWith(pre)`. -/
def sStarts (s pre : Str) : Bool := pre.isPrefixOf s

/-- JavaScript `s.endsWith(suf)`. -/
def sEnds (s suf : Str) : Bool := suf.isSuffixOf s

/-- JavaScript `s.includes(sub)`. -/
def containsSub (s sub : Str) : Bool :=
  if sub.isPrefixOf s then true
  else
    match s with
    | [] => false
    | _ :: t => containsSub t sub

/-- JavaScript `s.indexOf(sub)`, `none` for `-1`. -/
def indexOfSub (s sub : Str) : Option Nat :=
  if sub.isPrefixOf s then some 0
  else
    match s with
    | [] => none
    | _ :: t => (indexOfSub t sub).map (· + 1)

/-- JavaScript `s.indexOf(c)` for a single character. -/
def indexOfChar (s : Str) (c : Char) : Option Nat := s.findIdx? (· == c)

/-- JavaScript `s.indexOf(c, from)` for a single character. -/
def indexOfCharFrom (s : Str) (c : Char) (start : Nat) : Option Nat :=
  ((s.drop start).findIdx? (· == c)).map (· + start)

/-- JavaScript `s.split(sep)` for a non-empty literal separator (all the
    source's uses); an empty separator returns the string whole.  Structural
    recursion on a fuel bound (each step consumes at least one character, so
    fuel `rest.length + 1` never runs out). -/
def splitSepGo (sep : Str) : Nat → Str → Str → List Str
  | 0, acc, rest => [acc ++ rest]
  | fuel + 1, acc, rest =>
      if !sep.isEmpty && sep.isPrefixOf rest then
        acc :: splitSepGo sep fuel [] (rest.drop sep.length)
      else
        match rest with
        | [] => [acc]
        | c :: t => splitSepGo sep fuel (acc ++ [c]) t

/-- JavaScript `s.split(sep)`. -/
def splitSep (sep s : Str) : List Str := splitSepGo sep (s.length + 1) [] s

/-- JavaScript `s.split(c)` for a single-character separator. -/
def splitChar (c : Char) (s : Str) : List Str := splitSep [c] s

/-- JavaScript `s.split(regex)` where the regex is a single-character class
    (used as `split(/[/\\]/)`). -/
def splitByPred (p : Char → Bool) (s : Str) : List Str :=
  match s with
  | [] => [[]]
  | c :: t =>
      if p c then [] :: splitByPred p t
      else
        match splitByPred p t with
        | [] => [[c]]
        | piece :: rest => (c :: piece) :: rest

/-- Remove the first occurrence of `x` (JavaScript
    `arr.splice(arr.indexOf(x), 1)` when `x` is present). -/
def spliceFirst (l : List Str) (x : Str) : List Str :=
  match l with
  | [] => []
  | y :: t => if y == x then t else y :: spliceFirst t x

/-- JavaScript `s.replace(/[*()]/g, '')`: strip priority and call markers. -/
def stripMarkers (s : Str) : Str :=
  s.filter fun c => !(c == '*' || c == '(' || c == ')')

/-- JavaScript `s.replace(/[{}\s]/g, '')`. -/
def stripBracesSpace (s : Str) : Str :=
  s.filter fun c => !(c == lbr || c == rbr || isSpaceChar c)

/-- JavaScript `arr.join(sep)`. -/
def joinSep (sep : Str) : List Str → Str
  | [] => []
  | [x] => x
  | x :: y :: rest => x ++ sep ++ joinSep sep (y :: rest)

/-- JavaScript `s.substring(a, b)` (argument order normalised, clamped). -/
def substringJS (s : Str) (a b : Nat) : Str := (s.take (max a b)).drop (min a b)

/-- JavaScript `s.substring(a)`. -/
def substringFrom (s : Str) (a : Nat) : Str := s.drop a

/-- JavaScript `Array.prototype.slice(a, b)` with possibly negative ends. -/
def arrIdx (n : Nat) (i : Int) : Nat :=
  if i < 0 then ((n : Int) + i).toNat else min i.toNat n

/-- JavaScript `arr.slice(a, b)`. -/
def arrSlice (l : List α) (a b : Int) : List α :=
  (l.take (arrIdx l.length b)).drop (arrIdx l.length a)

/-- JavaScript `arr.slice(a)`. -/
def arrSliceFrom (l : List α) (a : Int) : List α := l.drop (arrIdx l.length a)

/-- Stable insertion of `x` after every element strictly preceding it:
    building block of a stable ascending sort (JavaScript's `sort` with a
    numeric comparator is stable). -/
def insSorted (lt : α → α → Bool) (x : α) : List α → List α
  | [] => [x]
  | y :: ys => if lt y x then y :: insSorted lt x ys else x :: y :: ys

/-- Stable ascending sort by a strict comparison, as JavaScript
    `arr.sort((a, b) => key a - key b)` behaves. -/
def stableSortBy (lt : α → α → Bool) (l : List α) : List α :=
  l.foldr (insSorted lt) []

/-- JavaScript `Set` of strings in insertion order: `add` appends when the
    element is not yet present. -/
def setAdd (s : List Str) (x : Str) : List Str :=
  if s.contains x then s else s ++ [x]

/-! ### Editor document model

A vscode `TextDocument` is modelled by its list of lines (a real document has
at least one line), a language identifier and a file name.  Positions are
(line, character) pairs; the functions below mirror the vscode API operations
the source uses (with positions assumed or clamped to be valid, as vscode
itself clamps them). -/

/-- Cursor position: zero-based line and character. -/
structure Pos where
  line : Nat
  char : Nat
deriving DecidableEq, Repr

/-- `p` before-or-equal `q` in document order. -/
def Pos.le (p q : Pos) : Bool :=
  p.line < q.line || (p.line == q.line && p.char ≤ q.char)

/-- A text range; vscode normalises `start ≤ stop` at construction, modelled
    by `Range.mk'` below. -/
structure Range where
  start : Pos
  stop : Pos
deriving DecidableEq, Repr

/-- vscode `new Range(a, b)`: swaps the ends when given in reverse order. -/
def Range.mk' (a b : Pos) : Range :=
  if Pos.le a b then ⟨a, b⟩ else ⟨b, a⟩

/-- An editor document. -/
structure Document where
  lines : List Str
  languageId : Str
  fileName : Str

/-- vscode `document.lineCount`. -/
def Document.lineCount (d : Document) : Nat := d.lines.length

/-- vscode `document.lineAt(i).text` (total, empty beyond the last line). -/
def Document.lineAt (d : Document) (i : Nat) : Str := d.lines.getD i []

/-- vscode `document.getText()`: lines joined by a newline. -/
def Document.getText (d : Document) : Str := joinSep ['\n'] d.lines

/-- Clamp a position into the document, as vscode validates positions. -/
def Document.clampPos (d : Document) (p : Pos) : Pos :=
  let ln := min p.line (d.lineCount - 1)
  ⟨ln, min p.char (d.lineAt ln).length⟩

/-- vscode `document.offsetAt(p)`. -/
def Document.offsetAt (d : Document) (p : Pos) : Nat :=
  let q := d.clampPos p
  (((d.lines.take q.line).map fun l => l.length + 1).sum) + q.char

/-- Walk lines to convert an offset to a position. -/
def posAtAux : List Str → Nat → Nat → Pos
  | [], _, ln => ⟨ln, 0⟩
  | [l], off, ln => ⟨ln, min off l.length⟩
  | l :: l' :: ls, off, ln =>
      if off ≤ l.length then ⟨ln, off⟩
      else posAtAux (l' :: ls) (off - (l.length + 1)) (ln + 1)

/-- vscode `document.positionAt(offset)` (clamped into the document). -/
def Document.positionAt (d : Document) (off : Nat) : Pos := posAtAux d.lines off 0

/-- Text of the document between two positions in order (`getText(range)`),
    recursing over the lines spanned; fuel `q.line - p.line + 1` is exact. -/
def textBetweenFuel (d : Document) : Nat → Pos → Pos → Str
  | 0, p, q => ((d.lineAt p.line).take q.char).drop p.char
  | fuel + 1, p, q =>
      if q.line ≤ p.line then ((d.lineAt p.line).take q.char).drop p.char
      else ((d.lineAt p.line).drop p.char) ++ '\n' :: textBetweenFuel d fuel ⟨p.line + 1, 0⟩ q

/-- Text of the document between two ordered positions. -/
def textBetween (d : Document) (p q : Pos) : Str :=
  textBetweenFuel d (q.line - p.line + 1) p q

/-- vscode `document.getText(new Range(a, b))`. -/
def Document.rangeText (d : Document) (a b : Pos) : Str :=
  let r := Range.mk' a b
  textBetween d r.start r.stop

/-- The position of the document's end. -/
def Document.endPos (d : Document) : Pos :=
  ⟨d.lineCount - 1, (d.lineAt (d.lineCount - 1)).length⟩

/-- An editor: a document and the active cursor position
    (`editor.selection.active`). -/
structure Editor where
  document : Document
  active : Pos

/-- The editor configuration values the embedded functions read. -/
structure EditorConfig where
  contextLineCountRaw : Nat
  tabSizeRaw : Nat
  insertSpaces : Bool

/-- `config.get<number>('contextLineCount') || 50` (`0` is falsy). -/
def EditorConfig.contextLineCount (c : EditorConfig) : Nat :=
  if c.contextLineCountRaw == 0 then 50 else c.contextLineCountRaw

/-- `config.get<number>('tabSize') || 4` (`0` is falsy). -/
def EditorConfig.tabSize (c : EditorConfig) : Nat :=
  if c.tabSizeRaw == 0 then 4 else c.tabSizeRaw

/-! ### PromptBuilder.truncatePrompt

Embedding of the prompt builder's truncation pass (the section-header revision
of `PromptBuilder.truncatePrompt`, which §4.6 of the specification describes:
it re-parses the joined prompt by `'## '` headers).

Numeric modelling: the source computes token estimates as floating-point
`length / 4` comparisons against `maxTokens`, `maxTokens * 0.98` and
`maxTokens * 0.9`.  Division by 4 is exact in binary floating point, so
`length / 4 ≤ maxTokens` is modelled exactly as `length ≤ 4 * maxTokens`;
products with 0.98 and 0.9 are modelled by the exact rationals 98/100 and
9/10 (the double rounding of those constants can only shift hairline cases,
none of which the theorems below rely on). -/

/-- The five sections the truncation pass recovers from the joined prompt. -/
structure PromptSections where
  systemPrompt : Str
  codeContext : Str
  enhancedContext : Str
  userPrompt : Str
  finalInstructions : Str

/-- The inner loop over `section.split('\n\n')` classifying user-prompt and
    final-instruction fragments. -/
def classifyUserParts (s : PromptSections) (parts : List Str) : PromptSections :=
  parts.foldl
    (fun s part =>
      if containsSub part "用户要求".data || containsSub part "用户特别要求".data then
        { s with userPrompt := part }
      else if containsSub part "请提供".data || containsSub part "重要:".data then
        { s with finalInstructions :=
            if s.finalInstructions.isEmpty then part
            else s.finalInstructions ++ "\n\n".data ++ part }
      else s)
    s

/-- The section-classification loop of `truncatePrompt` over
    `prompt.split('## ')`. -/
def parseSections (sections : List Str) : PromptSections :=
  let s0 : PromptSections :=
    ⟨sections.headD [], [], [], [], []⟩
  sections.tail.foldl
    (fun s sec =>
      if sStarts sec "代码上下文".data then
        { s with codeContext := "## ".data ++ sec }
      else if sStarts sec "增强上下文信息".data then
        { s with enhancedContext := "## ".data ++ sec }
      else if containsSub sec "用户要求".data || containsSub sec "用户特别要求".data then
        classifyUserParts s (splitSep "\n\n".data sec)
      else s)
    s0

/-- The parsed sections of a prompt. -/
def sectionsOf (prompt : Str) : PromptSections :=
  parseSections (splitSep "## ".data prompt)

/-- `[systemPrompt, codeContext, userPrompt, finalInstructions].filter(Boolean)`. -/
def criticalPartsOf (prompt : Str) : List Str :=
  let ps := sectionsOf prompt
  [ps.systemPrompt, ps.codeContext, ps.userPrompt, ps.finalInstructions].filter
    fun l => !l.isEmpty

/-- The critical text: critical parts joined by blank lines. -/
def criticalTextOf (prompt : Str) : Str :=
  joinSep "\n\n".data (criticalPartsOf prompt)

/-- One pass of `for (const part of [...parts]) if (cond) { push; splice }`:
    returns the parts moved (in order) and the remaining list. -/
def selectWhere (cond : Str → Bool) : List Str → List Str → (List Str × List Str)
  | [], cur => ([], cur)
  | p :: rest, cur =>
      if cond p then
        let res := selectWhere cond rest (spliceFirst cur p)
        (p :: res.1, res.2)
      else selectWhere cond rest cur

/-- The priority ordering of enhanced-context parts: header first, then
    symbol/indentation parts, then scope/syntax parts, then the rest. -/
def prioritizedPartsOf (prompt : Str) : List Str :=
  let ps := sectionsOf prompt
  let enhancedParts := (splitSep "\n\n".data ps.enhancedContext).filter fun l => !l.isEmpty
  let hdrSplit :=
    match enhancedParts with
    | p :: rest =>
        if sStarts p "## 增强上下文信息".data then ([p], rest) else ([], p :: rest)
    | [] => ([], [])
  let sel1 := selectWhere
    (fun p => containsSub p "相关标识符".data || containsSub p "缩进信息".data)
    hdrSplit.2 hdrSplit.2
  let sel2 := selectWhere
    (fun p => containsSub p "当前作用域".data || containsSub p "语法上下文".data)
    sel1.2 sel1.2
  hdrSplit.1 ++ sel1.1 ++ sel2.1 ++ sel2.2

/-- The greedy fill: add parts while
    `currentTokens + partTokens ≤ maxTokens * 0.98` (scaled by 100 to exact
    integers), stopping at the first part that does not fit. -/
def greedySelect (maxTokens : Nat) : List Str → Nat → List Str
  | [], _ => []
  | p :: rest, currentChars =>
      if 25 * (currentChars + p.length) ≤ 98 * maxTokens then
        p :: greedySelect maxTokens rest (currentChars + p.length)
      else []

/-- The enhanced parts the greedy fill keeps. -/
def selectedPartsOf (prompt : Str) (maxTokens : Nat) : List Str :=
  greedySelect maxTokens (prioritizedPartsOf prompt) (criticalTextOf prompt).length

/-- The notice appended when no enhanced part fits. -/
def omissionNotice : Str := "\n\n(增强上下文信息已省略以符合token限制)".data

/-- The output assembled when enhanced parts are kept: first two critical
    parts, the selected enhanced parts, then the remaining critical parts. -/
def enhancedAssemblyOf (prompt : Str) (maxTokens : Nat) : Str :=
  joinSep "\n\n".data (arrSlice (criticalPartsOf prompt) 0 2) ++ "\n\n".data ++
    joinSep "\n\n".data (selectedPartsOf prompt maxTokens) ++ "\n\n".data ++
    joinSep "\n\n".data (arrSliceFrom (criticalPartsOf prompt) 2)

/-- The proportional degradation output when even system prompt plus code
    context exceed the budget: `systemChars`/`codeChars` are
    `Math.floor(maxTokens * 0.9 * 4 * ratio)` in exact arithmetic. -/
def proportionalCutOf (prompt : Str) (maxTokens : Nat) : Str :=
  let ps := sectionsOf prompt
  let denom := 5 * (ps.systemPrompt.length + ps.codeContext.length)
  let systemChars := 18 * maxTokens * ps.systemPrompt.length / denom
  let codeChars := 18 * maxTokens * ps.codeContext.length / denom
  let base := ps.systemPrompt.take systemChars
  let withCode :=
    if !ps.codeContext.isEmpty then
      base ++ "\n\n(代码上下文已截断)\n".data ++ ps.codeContext.take codeChars
    else base
  withCode ++ "\n\n请根据可见的上下文提供最合理的代码补全。".data

/-- `PromptBuilder.truncatePrompt(prompt, maxTokens)`. -/
def truncatePrompt (prompt : Str) (maxTokens : Nat) : Str :=
  if prompt.length ≤ 4 * maxTokens then prompt
  else if (splitSep "## ".data prompt).length < 2 then
    substringJS prompt 0 (2 * maxTokens) ++ "\n...\n".data ++
      substringFrom prompt (prompt.length - 2 * maxTokens)
  else
    let ps := sectionsOf prompt
    let criticalText := criticalTextOf prompt
    if 4 * maxTokens < criticalText.length then
      if 4 * maxTokens < ps.systemPrompt.length + ps.codeContext.length then
        proportionalCutOf prompt maxTokens
      else
        criticalText
    else if criticalText.length < 4 * maxTokens && !ps.enhancedContext.isEmpty then
      match selectedPartsOf prompt maxTokens with
      | [] => criticalText ++ omissionNotice
      | [p] =>
          if sStarts p "## ".data then criticalText ++ omissionNotice
          else enhancedAssemblyOf prompt maxTokens
      | _ => enhancedAssemblyOf prompt maxTokens
    else criticalText

/-- Concrete input refuting claim C1: 399 filler characters of system prompt
    followed by an enhanced-context section, with a budget of 100 tokens. -/
def cexPromptC1 : Str := List.replicate 399 'a' ++ "## 增强上下文信息\n\nX".data

/-! ### PromptBuilder.buildSymbolsInfo -/

/-- Symbols carrying the high-priority marker (`s.includes('*')`). -/
def prioritySymbolsOf (info : List Str) : List Str :=
  info.filter fun s => containsSub s "*".data

/-- Symbols without the marker. -/
def normalSymbolsOf (info : List Str) : List Str :=
  info.filter fun s => !containsSub s "*".data

/-- Function-tagged or call symbols among the unmarked ones. -/
def functionSymbolsOf (info : List Str) : List Str :=
  (normalSymbolsOf info).filter fun s =>
    sStarts s "function:".data || containsSub s "()".data

/-- Class-tagged symbols among the unmarked ones. -/
def classSymbolsOf (info : List Str) : List Str :=
  (normalSymbolsOf info).filter fun s => sStarts s "class:".data

/-- The remaining unmarked symbols. -/
def otherSymbolsOf (info : List Str) : List Str :=
  (normalSymbolsOf info).filter fun s =>
    !sStarts s "function:".data && !sStarts s "class:".data &&
      !containsSub s "()".data

/-- The ordered, truncated symbol list the prompt renders
    (`allOrderedSymbols` in `buildSymbolsInfo`). -/
def orderedSymbolsOf (info : List Str) : List Str :=
  (prioritySymbolsOf info ++ functionSymbolsOf info ++ classSymbolsOf info ++
    otherSymbolsOf info).take 20

/-- Header of the nearby-symbols prompt section. -/
def symbolsHeader : Str := "相关标识符(优先使用这些已定义的变量、函数和类): ".data

/-- `PromptBuilder.buildSymbolsInfo`. -/
def buildSymbolsInfo (symbolInfo : List Str) : Str :=
  if symbolInfo.isEmpty then []
  else symbolsHeader ++ joinSep ", ".data (orderedSymbolsOf symbolInfo)

/-- The category rank the rendering order follows: priority-marked, then
    function-tagged/call, then class-tagged, then the rest. -/
def symRank (s : Str) : Nat :=
  if containsSub s "*".data then 0
  else if sStarts s "function:".data || containsSub s "()".data then 1
  else if sStarts s "class:".data then 2
  else 3

/-- A sample symbol list exercising all four rendering categories. -/
def demoSymbols : List Str :=
  ["obj*".data, "f()".data, "class:C".data, "x".data, "function:g".data]

/-! ### ContextAnalyzer.isKeyword and the symbol extractor -/

/-- Python keyword set. -/
def pythonKeywords : List Str :=
  ["if", "elif", "else", "for", "while", "def", "class", "try",
   "except", "finally", "with", "as", "import", "from", "return",
   "yield", "break", "continue", "pass", "True", "False", "None",
   "and", "or", "not", "is", "in", "lambda", "global", "nonlocal",
   "async", "await", "assert", "del", "raise", "self"].map String.data

/-- JavaScript/TypeScript keyword set. -/
def jsKeywords : List Str :=
  ["if", "else", "for", "while", "do", "switch", "case", "break",
   "continue", "return", "try", "catch", "finally", "throw",
   "new", "delete", "var", "let", "const", "function", "class",
   "this", "super", "import", "export", "from", "as", "async", "await",
   "static", "public", "private", "protected", "extends", "implements",
   "interface", "enum", "package", "true", "false", "null", "undefined",
   "void", "typeof", "instanceof", "in", "of", "with", "yield"].map String.data

/-- Java keyword set. -/
def javaKeywords : List Str :=
  ["abstract", "assert", "boolean", "break", "byte", "case", "catch",
   "char", "class", "const", "continue", "default", "do", "double",
   "else", "enum", "extends", "final", "finally", "float", "for",
   "if", "implements", "import", "instanceof", "int", "interface",
   "long", "native", "new", "package", "private", "protected", "public",
   "return", "short", "static", "strictfp", "super", "switch", "synchronized",
   "this", "throw", "throws", "transient", "try", "void", "volatile", "while",
   "true", "false", "null"].map String.data

/-- Fallback keyword set for other languages. -/
def genericKeywords : List Str :=
  ["if", "else", "for", "while", "return", "break", "continue",
   "class", "function", "true", "false", "null"].map String.data

/-- `ContextAnalyzer.isKeyword(word, languageId)`. -/
def isKeyword (word lang : Str) : Bool :=
  let kws :=
    if lang == "python".data then pythonKeywords
    else if lang == "javascript".data || lang == "typescript".data then jsKeywords
    else if lang == "java".data then javaKeywords
    else genericKeywords
  kws.contains word

/-- The matched text of a regex match. -/
def matchedText (text : Str) (m : RxMatch) : Str := (text.drop m.start).take m.len

/-- `/\b[a-zA-Z_]\w*\b/g`. -/
def symbolRx : Rx :=
  rseq [.wb, .cls (fun c => c.isAlpha || c == '_'), .starC isWordChar, .wb]

/-- `/(\w+)\s*\(/g`. -/
def methodCallRx : Rx := rseq [wgrp 1, sp0, rLp]

/-- `/(\w+)\.(\w+)/g`. -/
def propertyAccessRx : Rx := rseq [wgrp 1, .lit ['.'], wgrp 2]

/-- `/function\s+(\w+)|(\w+)\s*=\s*function|const\s+(\w+)\s*=\s*\([^)]*\)\s*=>/g`
    (JavaScript/TypeScript function-definition symbol pattern). -/
def jsFunctionDefRx : Rx :=
  ralt
    [rseq [rStr "function", sp1, wgrp 1],
     rseq [wgrp 2, sp0, rStr "=", sp0, rStr "function"],
     rseq [rStr "const", sp1, wgrp 3, sp0, rStr "=", sp0, rLp, nrp0, rRp, sp0,
       rStr "=>"]]

/-- `/def\s+(\w+)/g` (Python). -/
def pyFunctionDefRx : Rx := rseq [rStr "def", sp1, wgrp 1]

/-- `/(?:public|private|protected)(?:\s+static)?\s+\w+\s+(\w+)\s*\(/g` (Java). -/
def javaFunctionDefRx : Rx :=
  rseq [ralt [rStr "public", rStr "private", rStr "protected"],
    .opt (rseq [sp1, rStr "static"]), sp1, w1, sp1, wgrp 1, sp0, rLp]

/-- `/class\s+(\w+)/g`. -/
def classDefRx : Rx := rseq [rStr "class", sp1, wgrp 1]

/-- The per-language function-definition pattern of the symbol extractor
    (`none` when the switch assigns no pattern). -/
def functionDefRxFor (lang : Str) : Option Rx :=
  if lang == "javascript".data || lang == "typescript".data then some jsFunctionDefRx
  else if lang == "python".data then some pyFunctionDefRx
  else if lang == "java".data then some javaFunctionDefRx
  else none

/-- The per-language class-definition pattern of the symbol extractor. -/
def classDefRxFor (lang : Str) : Option Rx :=
  if lang == "javascript".data || lang == "typescript".data ||
      lang == "python".data || lang == "java".data then some classDefRx
  else none

/-- `/function\s*\(([^)]*)\)/`. -/
def paramRx1 : Rx :=
  rseq [rStr "function", sp0, rLp, .grp 1 (.starC fun c => c != ')'), rRp]

/-- `/\([^)]*\)\s*=>/` (note: no capture group). -/
def paramRx2 : Rx := rseq [rLp, nrp0, rRp, sp0, rStr "=>"]

/-- `/\(([^)]*)\)\s*{/`. -/
def paramRx3 : Rx :=
  rseq [rLp, .grp 1 (.starC fun c => c != ')'), rRp, sp0, rOb]

/-- The non-marker part of a possibly marked symbol. -/
def symMark (prio : Bool) (s : Str) : Str := if prio then s ++ ['*'] else s

/-- The `symbolRegex` loop of `extractSymbolsFromLine`. -/
def addPlainSymbols (lang : Str) (prio : Bool) (line : Str) (set : List Str) :
    List Str :=
  (rxExecAll symbolRx line).foldl
    (fun st m =>
      let sym := matchedText line m
      if !isKeyword sym lang then setAdd st (symMark prio sym) else st)
    set

/-- The `methodCallRegex` loop. -/
def addMethodCalls (lang : Str) (prio : Bool) (line : Str) (set : List Str) :
    List Str :=
  (rxExecAll methodCallRx line).foldl
    (fun st m =>
      let name := capGetD m.caps 1
      if !isKeyword name lang then
        setAdd st (if prio then name ++ "*()".data else name ++ "()".data)
      else st)
    set

/-- The `propertyAccessRegex` loop. -/
def addPropertyAccess (lang : Str) (prio : Bool) (line : Str) (set : List Str) :
    List Str :=
  (rxExecAll propertyAccessRx line).foldl
    (fun st m =>
      let obj := capGetD m.caps 1
      let prop := capGetD m.caps 2
      if !isKeyword obj lang && !isKeyword prop lang then
        setAdd (setAdd st (symMark prio obj)) (symMark prio (obj ++ '.' :: prop))
      else st)
    set

/-- The first defined capture group among 1..3 (`match.slice(1).find(...)`). -/
def firstCap (caps : Caps) : Option Str :=
  match capGet caps 1 with
  | some s => some s
  | none =>
      match capGet caps 2 with
      | some s => some s
      | none => capGet caps 3

/-- The `functionDefRegex` loop. -/
def addFunctionDefs (lang : Str) (line : Str) (set : List Str) : List Str :=
  match functionDefRxFor lang with
  | none => set
  | some r =>
      (rxExecAll r line).foldl
        (fun st m =>
          match firstCap m.caps with
          | some name =>
              if !name.isEmpty && !isKeyword name lang then
                setAdd st ("function:".data ++ name)
              else st
          | none => st)
        set

/-- The `classDefRegex` loop. -/
def addClassDefs (lang : Str) (line : Str) (set : List Str) : List Str :=
  match classDefRxFor lang with
  | none => set
  | some r =>
      (rxExecAll r line).foldl
        (fun st m =>
          let name := capGetD m.caps 1
          if !name.isEmpty && !isKeyword name lang then
            setAdd st ("class:".data ++ name)
          else st)
        set

/-- Parameter-name extraction: `param.split(/[=:]/, 2)[0].trim()`. -/
def paramNameOf (param : Str) : Str :=
  trimL (param.takeWhile fun c => !(c == '=' || c == ':'))

/-- The parameter-pattern loop (`paramPatterns` with non-global `match`). -/
def addParams (lang : Str) (prio : Bool) (line : Str) (set : List Str) : List Str :=
  [paramRx1, paramRx2, paramRx3].foldl
    (fun st r =>
      match rxFirst r line with
      | some m =>
          match capGet m.caps 1 with
          | some pstr =>
              if pstr.isEmpty then st
              else
                ((splitChar ',' pstr).map trimL).foldl
                  (fun st' param =>
                    let paramName := paramNameOf param
                    if !paramName.isEmpty && !isKeyword paramName lang then
                      setAdd st' (symMark prio paramName)
                    else st')
                  st
          | none => st
      | none => st)
    set

/-- `ContextAnalyzer.extractSymbolsFromLine`. -/
def extractSymbolsFromLine (line lang : Str) (set : List Str) (prio : Bool) :
    List Str :=
  addParams lang prio line
    (addClassDefs lang line
      (addFunctionDefs lang line
        (addPropertyAccess lang prio line
          (addMethodCalls lang prio line
            (addPlainSymbols lang prio line set)))))

/-- The API identifier patterns of `extractSymbolsFromText`, with the name
    each pattern's source text begins with (`pattern.toString().match(/\w+/)`). -/
def apiPatterns : List (Rx × Str) :=
  [(rStr "provideInlineCompletionItems", "provideInlineCompletionItems".data),
   (rStr "inlineCompletionProvider", "inlineCompletionProvider".data),
   (rseq [rStr "getCodeCompletions", rLp], "getCodeCompletions".data),
   (rseq [rStr "trie.getPrefix", rLp], "trie".data),
   (rseq [rStr "updateStatusBarItem", rLp], "updateStatusBarItem".data),
   (rStr "candidateNum", "candidateNum".data),
   (rStr "someTrackingIdCounter", "someTrackingIdCounter".data),
   (rStr "lastRequest", "lastRequest".data)]

/-- `/provideInlineCompletionItems\s*:\s*async\s*\(\s*([^)]+)\)/`. -/
def provideParamsRx : Rx :=
  rseq [rStr "provideInlineCompletionItems", sp0, rStr ":", sp0, rStr "async",
    sp0, rLp, sp0, .grp 1 (.plusC fun c => c != ')'), rRp]

/-- `ContextAnalyzer.extractSymbolsFromText`. -/
def extractSymbolsFromText (text lang : Str) (set : List Str) (prio : Bool) :
    List Str :=
  let afterLines :=
    (splitChar '\n' text).foldl
      (fun st line => extractSymbolsFromLine line lang st prio) set
  let afterApi :=
    apiPatterns.foldl
      (fun st pr =>
        if rxTest pr.1 text then
          setAdd (setAdd st (pr.2 ++ ['*'])) (pr.2 ++ "*()".data)
        else st)
      afterLines
  match rxFirst provideParamsRx text with
  | some m =>
      match capGet m.caps 1 with
      | some pstr =>
          if pstr.isEmpty then afterApi
          else
            ((splitChar ',' pstr).map trimL).foldl
              (fun st param =>
                let paramName := trimL (param.takeWhile fun c => c != ':')
                if !paramName.isEmpty && !isKeyword paramName lang then
                  setAdd st (paramName ++ ['*'])
                else st)
              afterApi
      | none => afterApi
  | none => afterApi

/-- Concrete line refuting the stripped-keyword claim C7: the parameter
    heuristic captures the parameter text `i*f`, which passes the keyword
    check raw but strips to the keyword `if`. -/
def cexLineC7 : Str := "function (i*f)".data

/-- Scenario C text. -/
def scenarioCText : Str := "const a = obj.prop;".data

/-! ### Structural pattern matchers -/

/-- A recognised structure record: kind, optional name, source offset. -/
structure CodeStructureInfo where
  type : Str
  name : Str
  position : Nat
deriving DecidableEq, Repr

/-- Ascending stable sort of structure records by source position
    (`structures.sort((a, b) => a.position - b.position)`). -/
def sortByPosition (l : List CodeStructureInfo) : List CodeStructureInfo :=
  stableSortBy (fun a b => a.position < b.position) l

/-- A quote character (`['"]`). -/
def isQuote (c : Char) : Bool := c == sq || c == dq

/-- `(?:async\s*)?`. -/
def optAsync : Rx := .opt (rseq [rStr "async", sp0])

/-- `\([^)]*\)`. -/
def parens : Rx := rseq [rLp, nrp0, rRp]

/-- `(?:\s+extends\s+(\w+))?`. -/
def optExtendsWord : Rx := .opt (rseq [sp1, rStr "extends", sp1, wgrp 2])

/-- The pattern table of `ContextAnalyzer.analyzeJSCodeStructure`. -/
def jsStructurePatterns : List (Rx × Str) :=
  [(rseq [rStr "function", sp1, wgrp 1, sp0, parens], "function".data),
   (rseq [wgrp 1, sp0, rStr "=", sp0, rStr "function", sp0, parens], "function".data),
   (rseq [wgrp 1, sp0, rStr ":", sp0, rStr "function", sp0, parens], "method".data),
   (rseq [rStr "const", sp1, wgrp 1, sp0, rStr "=", sp0, optAsync, parens, sp0,
     rStr "=>"], "arrow-function".data),
   (rseq [rStr "let", sp1, wgrp 1, sp0, rStr "=", sp0, optAsync, parens, sp0,
     rStr "=>"], "arrow-function".data),
   (rseq [rStr "var", sp1, wgrp 1, sp0, rStr "=", sp0, optAsync, parens, sp0,
     rStr "=>"], "arrow-function".data),
   (rseq [wgrp 1, sp0, rStr ":", sp0, optAsync, parens, sp0, rStr "=>"],
     "arrow-method".data),
   (rseq [rStr "class", sp1, wgrp 1, optExtendsWord, sp0, rOb], "class".data),
   (rseq [rStr "interface", sp1, wgrp 1,
     .opt (rseq [sp1, rStr "extends", sp1, .grp 2 (.plusC fun c => c != lbr)]),
     sp0, rOb], "interface".data),
   (rseq [rStr "type", sp1, wgrp 1, sp0, rStr "=", sp0, rOb], "type".data),
   (rseq [rStr "enum", sp1, wgrp 1, sp0, rOb], "enum".data),
   (rseq [rStr "import", sp1,
     .grp 1 (ralt
       [rseq [rOb, .plusC (fun c => c != rbr), rCb],
        rseq [.lit ['*'], sp1, rStr "as", sp1, w1],
        w1]),
     sp1, rStr "from", sp1, .cls isQuote, .grp 2 (.plusC fun c => !isQuote c),
     .cls isQuote], "import".data),
   (rseq [rStr "export", sp1, .opt (rseq [rStr "default", sp1]), rStr "function",
     sp1, wgrp 1], "exported-function".data),
   (rseq [rStr "export", sp1, .opt (rseq [rStr "default", sp1]), rStr "class",
     sp1, wgrp 1], "exported-class".data),
   (rseq [rStr "provideInlineCompletionItems", sp0, rStr ":", sp0, optAsync,
     parens], "api-method".data),
   (rseq [rStr "inlineCompletionProvider", sp0,
     .cls (fun c => c == '=' || c == ':'), sp0, rStr "function"],
     "api-function".data)]

/-- `type.includes('api') ? type.split('-')[1] : ''`. -/
def apiNameOf (type : Str) : Str :=
  if containsSub type "api".data then ((splitChar '-' type).drop 1).headD []
  else []

/-- `ContextAnalyzer.analyzeJSCodeStructure` (the document and position
    arguments are only logged by the source). -/
def analyzeJSCodeStructure (beforeCode afterCode : Str) : List CodeStructureInfo :=
  let fullCode := beforeCode ++ '\n' :: afterCode
  let structures := jsStructurePatterns.foldl
    (fun acc pr =>
      acc ++ (rxExecAll pr.1 fullCode).map fun m =>
        let name :=
          match capGet m.caps 1 with
          | some n => if n.isEmpty then apiNameOf pr.2 else n
          | none => apiNameOf pr.2
        ⟨pr.2, name, m.start⟩)
    []
  sortByPosition structures

/-- The function patterns of `TypeScriptAnalyzer.analyzeCodeStructure`. -/
def tsStructureFunctionPatterns : List (Rx × Str) :=
  [(rseq [rStr "function", sp1, wgrp 1, sp0, parens, sp0, rOb], "function".data),
   (rseq [rStr "const", sp1, wgrp 1, sp0, rStr "=", sp0, rStr "function", sp0,
     parens, sp0, rOb], "function".data),
   (rseq [rStr "const", sp1, wgrp 1, sp0, rStr "=", sp0, parens, sp0, rStr "=>",
     sp0, rOb], "arrow-function".data),
   (rseq [wgrp 1, sp0, rStr "=", sp0, parens, sp0, rStr "=>", sp0, rOb],
     "arrow-function".data),
   (rseq [wgrp 1, sp0, rStr ":", sp0, rStr "function", sp0, parens, sp0, rOb],
     "method".data)]

/-- `/class\s+(\w+)(?:\s+extends\s+(\w+))?\s*{/g`. -/
def tsClassPattern : Rx := rseq [rStr "class", sp1, wgrp 1, optExtendsWord, sp0, rOb]

/-- `/interface\s+(\w+)(?:\s+extends\s+([^{]+))?\s*{/g`. -/
def tsInterfacePattern : Rx :=
  rseq [rStr "interface", sp1, wgrp 1,
    .opt (rseq [sp1, rStr "extends", sp1, .grp 2 (.plusC fun c => c != lbr)]),
    sp0, rOb]

/-- The import pattern of `TypeScriptAnalyzer.analyzeCodeStructure`: like the
    generic JS import pattern but with the module name restricted to the class
    of word characters, `@`, slash and dash. -/
def tsImportPattern : Rx :=
  rseq [rStr "import", sp1,
    .grp 1 (ralt
      [rseq [rOb, .plusC (fun c => c != rbr), rCb],
       rseq [.lit ['*'], sp1, rStr "as", sp1, w1],
       w1]),
    sp1, rStr "from", sp1, .cls isQuote,
    .grp 2 (.plusC fun c =>
      isWordChar c || c == '@' || c == '/' || c == '-'),
    .cls isQuote]

/-- `TypeScriptAnalyzer.analyzeCodeStructure` (over the whole document text;
    the position argument is only logged). -/
def tsAnalyzeCodeStructure (d : Document) : List CodeStructureInfo :=
  let text := d.getText
  let fns := tsStructureFunctionPatterns.foldl
    (fun acc pr =>
      acc ++ (rxExecAll pr.1 text).map fun m =>
        (⟨pr.2, capGetD m.caps 1, m.start⟩ : CodeStructureInfo))
    []
  let classes := (rxExecAll tsClassPattern text).map fun m =>
    (⟨"class".data, capGetD m.caps 1, m.start⟩ : CodeStructureInfo)
  let interfaces := (rxExecAll tsInterfacePattern text).map fun m =>
    (⟨"interface".data, capGetD m.caps 1, m.start⟩ : CodeStructureInfo)
  let imports := (rxExecAll tsImportPattern text).map fun m =>
    (⟨"import".data, capGetD m.caps 2, m.start⟩ : CodeStructureInfo)
  sortByPosition (fns ++ classes ++ interfaces ++ imports)

/-- The pattern table of `ContextAnalyzer.analyzeControlStructures`:
    regex, kind, and the optional language gate. -/
def controlStructurePatterns : List (Rx × Str × Option (List Str)) :=
  [(rseq [rStr "function", sp1, wgrp 1, sp0, parens, sp0, rOb], "function".data, none),
   (rseq [wgrp 1, sp0, rStr "=", sp0, rStr "function", sp0, parens, sp0, rOb],
     "function".data, none),
   (rseq [wgrp 1, sp0, rStr ":", sp0, rStr "function", sp0, parens, sp0, rOb],
     "method".data, none),
   (rseq [rStr "const", sp1, wgrp 1, sp0, rStr "=", sp0, parens, sp0, rStr "=>",
     sp0, rOb], "arrow-function".data, none),
   (rseq [wgrp 1, sp0, parens, sp0, rOb], "function".data, none),
   (rseq [rStr "class", sp1, wgrp 1, optExtendsWord, sp0, rOb], "class".data, none),
   (rseq [rStr "if", sp0, parens, sp0, rOb], "if-statement".data, none),
   (rseq [rStr "else", sp0, rOb], "else-statement".data, none),
   (rseq [rStr "else", sp1, rStr "if", sp0, parens, sp0, rOb],
     "else-if-statement".data, none),
   (rseq [rStr "for", sp0, parens, sp0, rOb], "for-loop".data, none),
   (rseq [rStr "while", sp0, parens, sp0, rOb], "while-loop".data, none),
   (rseq [rStr "switch", sp0, parens, sp0, rOb], "switch-statement".data, none),
   (rseq [rStr "case", sp1, .grp 1 (.plusC fun c => c != ':'), .lit [':']],
     "case-statement".data, none),
   (rseq [rStr "try", sp0, rOb], "try-block".data, none),
   (rseq [rStr "catch", sp0, parens, sp0, rOb], "catch-block".data, none),
   (rseq [rStr "finally", sp0, rOb], "finally-block".data, none),
   (rseq [rStr "def", sp1, wgrp 1, sp0, parens, .lit [':']], "function".data,
     some ["python".data]),
   (rseq [rStr "class", sp1, wgrp 1, .opt (rseq [sp0, parens]), .lit [':']],
     "class".data, some ["python".data]),
   (rseq [rStr "if", sp1, .grp 1 (.plusC fun c => c != ':'), .lit [':']],
     "if-statement".data, some ["python".data]),
   (rseq [rStr "elif", sp1, .grp 1 (.plusC fun c => c != ':'), .lit [':']],
     "elif-statement".data, some ["python".data]),
   (rStr "else:", "else-statement".data, some ["python".data]),
   (rseq [rStr "for", sp1, .grp 1 (.plusC fun c => c != ':'), .lit [':']],
     "for-loop".data, some ["python".data]),
   (rseq [rStr "while", sp1, .grp 1 (.plusC fun c => c != ':'), .lit [':']],
     "while-loop".data, some ["python".data]),
   (rStr "try:", "try-block".data, some ["python".data]),
   (rseq [rStr "except", sp0, .opt (.grp 1 (.starC fun c => c != ':')),
     .lit [':']], "except-block".data, some ["python".data]),
   (rStr "finally:", "finally-block".data, some ["python".data]),
   (rseq [rStr "public", sp1, ralt [rStr "class", rStr "interface", rStr "enum"],
     sp1, wgrp 1, optExtendsWord,
     .opt (rseq [sp1, rStr "implements", sp1, .grp 3 (.plusC fun c => c != lbr)])],
     "class".data, some ["java".data]),
   (rseq [rStr "public", sp1, .opt (rseq [rStr "static", sp1]),
     .opt (rseq [rStr "final", sp1]), w1, sp1, wgrp 1, sp0, parens, sp0, rOb],
     "method".data, some ["java".data]),
   (rseq [rStr "private", sp1, .opt (rseq [rStr "static", sp1]),
     .opt (rseq [rStr "final", sp1]), w1, sp1, wgrp 1, sp0, parens, sp0, rOb],
     "method".data, some ["java".data]),
   (rseq [rStr "protected", sp1, .opt (rseq [rStr "static", sp1]),
     .opt (rseq [rStr "final", sp1]), w1, sp1, wgrp 1, sp0, parens, sp0, rOb],
     "method".data, some ["java".data])]

/-- `ContextAnalyzer.analyzeControlStructures(code, languageId)`. -/
def analyzeControlStructures (code lang : Str) : List CodeStructureInfo :=
  let structures := controlStructurePatterns.foldl
    (fun acc pr =>
      match pr.2.2 with
      | some gate =>
          if gate.contains lang then
            acc ++ (rxExecAll pr.1 code).map fun m =>
              (⟨pr.2.1, capGetD m.caps 1, m.start⟩ : CodeStructureInfo)
          else acc
      | none =>
          acc ++ (rxExecAll pr.1 code).map fun m =>
            (⟨pr.2.1, capGetD m.caps 1, m.start⟩ : CodeStructureInfo))
    []
  sortByPosition structures

/-! ### TypeScriptAnalyzer.analyzeRelatedImports -/

/-- The import pattern of `TypeScriptAnalyzer.analyzeRelatedImports`:
    group 1 is a braced named-import clause, group 2 a namespace name,
    group 3 a default-import name, group 4 the module name. -/
def tsRelatedImportPattern : Rx :=
  rseq [rStr "import", sp1,
    ralt
      [.grp 1 (rseq [rOb, .plusC (fun c => c != rbr), rCb]),
       rseq [.lit ['*'], sp1, rStr "as", sp1, wgrp 2],
       wgrp 3],
    sp1, rStr "from", sp1, .cls isQuote,
    .grp 4 (.plusC fun c => isWordChar c || c == '@' || c == '/' || c == '-'),
    .cls isQuote]

/-- The rebuilt named-import statement the analyzer pushes. -/
def mkNamedImport (entry moduleName : Str) : Str :=
  "import ".data ++ lbr :: ' ' :: entry ++ ' ' :: rbr :: ' ' :: "from ".data ++
    sq :: moduleName ++ [sq]

/-- The rebuilt namespace-import statement. -/
def mkNamespaceImport (ns moduleName : Str) : Str :=
  "import * as ".data ++ ns ++ ' ' :: "from ".data ++ sq :: moduleName ++ [sq]

/-- The rebuilt default-import statement. -/
def mkDefaultImport (dflt moduleName : Str) : Str :=
  "import ".data ++ dflt ++ ' ' :: "from ".data ++ sq :: moduleName ++ [sq]

/-- The named-entry comparison of the analyzer:
    `const [importName, alias] = namedImport.split(' as ')` followed by
    `plainSymbol === importName || plainSymbol === alias` (the entries have
    had all whitespace stripped, so the alias half never fires on them). -/
def entryMatches (plain entry : Str) : Bool :=
  let parts := splitSep " as ".data entry
  plain == parts.headD [] ||
    (match parts.get? 1 with
     | some a => plain == a
     | none => false)

/-- `TypeScriptAnalyzer.analyzeRelatedImports(document, position, symbols)`
    (the position argument is only logged by the source). -/
def tsAnalyzeRelatedImports (d : Document) (symbols : List Str) : List Str :=
  (rxExecAll tsRelatedImportPattern d.getText).foldl
    (fun acc m =>
      let importClause :=
        ((capGet m.caps 1).orElse fun _ =>
          (capGet m.caps 2).orElse fun _ => capGet m.caps 3).getD []
      let moduleName := capGetD m.caps 4
      if containsSub importClause [lbr] then
        let namedImports := splitChar ',' (stripBracesSpace importClause)
        symbols.foldl
          (fun acc' symbol =>
            let plain := stripMarkers symbol
            match namedImports.find? (fun n => entryMatches plain n) with
            | some n => acc' ++ [mkNamedImport n moduleName]
            | none => acc')
          acc
      else
        match capGet m.caps 2 with
        | some ns =>
            if symbols.any (fun s => sStarts (stripMarkers s) (ns ++ ['.'])) then
              acc ++ [mkNamespaceImport ns moduleName]
            else acc
        | none =>
            match capGet m.caps 3 with
            | some dflt =>
                if symbols.any (fun s => stripMarkers s == dflt) then
                  acc ++ [mkDefaultImport dflt moduleName]
                else acc
            | none => acc)
    []

/-- Names an ES import statement of the three shapes the analyzer emits binds
    in the importing module (written from the claim's notion of "binds": the
    braced entries, the namespace alias, or the default name). -/
def importBoundNames (s : Str) : List Str :=
  if sStarts s "import * as ".data then
    [(s.drop 12).takeWhile isWordChar]
  else if sStarts s ("import ".data ++ [lbr]) then
    (splitChar ',' ((s.drop 8).takeWhile fun c => c != rbr)).map trimL
  else
    [(s.drop 7).takeWhile isWordChar]

/-- Counterexample document for C3: one namespace import. -/
def cexDocC3 : Document :=
  ⟨[mkNamespaceImport "ns".data "m".data], "typescript".data, "a.ts".data⟩

/-! ### ContextAnalyzer.analyzeExpectedIndentation -/

/-- The block-keyword alternation of the indentation analysis
    (`if|for|while|else|switch|try|catch|finally|do|class|interface|enum`). -/
def blockKeywordAlt : Rx :=
  ralt [rStr "if", rStr "for", rStr "while", rStr "else", rStr "switch",
    rStr "try", rStr "catch", rStr "finally", rStr "do", rStr "class",
    rStr "interface", rStr "enum"]

/-- The `blockStarters` patterns, each tested end-anchored against the trimmed
    previous line: a trailing open bracket, a block keyword with a
    parenthesised condition, a bare block keyword, or a trailing colon. -/
def blockStarters : List Rx :=
  [.cls (fun c => c == lbr || c == '(' || c == '['),
   rseq [.grp 1 blockKeywordAlt, sp0, rLp, nrp0, rRp, sp0],
   rseq [.wb, .grp 1 blockKeywordAlt, sp0],
   rseq [.lit [':'], sp0]]

/-- One indent unit per editor configuration. -/
def indentUnitOf (cfg : EditorConfig) : Str :=
  if cfg.insertSpaces then List.replicate cfg.tabSize ' ' else ['\t']

/-- `beforeCursor.match(/[{([]/)` is non-null: the source's non-global
    `match` yields an array of length 1 when any open bracket is present. -/
def hasOpenBracketChar (s : Str) : Bool :=
  s.any fun c => c == lbr || c == '(' || c == '['

/-- `beforeCursor.match(/[})\]]/)` is non-null. -/
def hasCloseBracketChar (s : Str) : Bool :=
  s.any fun c => c == rbr || c == ')' || c == ']'

/-- `ContextAnalyzer.analyzeExpectedIndentation(document, position,
    beforeCursor, currentIndentation)`, with the editor's tab configuration
    made explicit.  Note: the source computes the open/close "counts" with
    non-global regexes, so each count is 0 or 1 — the comparison reduces to
    "some open bracket present and no close bracket present". -/
def analyzeExpectedIndentation (d : Document) (pos : Pos)
    (beforeCursor currentIndentation : Str) (cfg : EditorConfig) : Str :=
  let bracketFallback :=
    if hasOpenBracketChar beforeCursor && !hasCloseBracketChar beforeCursor then
      currentIndentation ++ indentUnitOf cfg
    else currentIndentation
  if 1 ≤ pos.line then
    if blockStarters.any (fun r => rxTestEnd r (trimL (d.lineAt (pos.line - 1)))) then
      currentIndentation ++ indentUnitOf cfg
    else bracketFallback
  else bracketFallback

/-- The nearest non-empty line strictly above `ln` (the claim's "previous
    non-empty line"; the source instead looks only at line `ln - 1`). -/
def prevNonEmptyLine (d : Document) : Nat → Option Str
  | 0 => none
  | n + 1 =>
      let l := d.lineAt n
      if (trimL l).isEmpty then prevNonEmptyLine d n else some l

/-- The indentation-increase condition exactly as claim C4 states it: the
    previous non-empty line ends with a block opener, or the count of open
    brackets in `beforeCursor` exceeds the count of close brackets. -/
def claimBlockOpenerCond (d : Document) (pos : Pos) (beforeCursor : Str) : Bool :=
  (match prevNonEmptyLine d pos.line with
   | some l => blockStarters.any fun r => rxTestEnd r (trimL l)
   | none => false)
  || decide ((beforeCursor.filter fun c => c == lbr || c == '(' || c == '[').length >
      (beforeCursor.filter fun c => c == rbr || c == ')' || c == ']').length)

/-- Default editor configuration (unset raw values fall back to 50/4). -/
def defaultCfg : EditorConfig := ⟨0, 0, true⟩

/-- Counterexample document for C4: a block opener two lines above the
    cursor, with a blank line in between. -/
def cexDocC4 : Document :=
  ⟨["if (x) \x7b".data, [], []], "typescript".data, []⟩

/-- Scenario B document: the cursor sits on the line after `if (x > 0) {`. -/
def scenarioBDoc : Document :=
  ⟨["if (x > 0) \x7b".data, []], "typescript".data, []⟩

/-! ### ContextAnalyzer.getCurrentFunctionOrClassRange -/

/-- The brace-language family
    (`['javascript','typescript','javascriptreact','typescriptreact']`). -/
def isTsFamily (lang : Str) : Bool :=
  ["javascript".data, "typescript".data, "javascriptreact".data,
    "typescriptreact".data].contains lang

/-- `(?:const|let|var)`. -/
def constLetVar : Rx := ralt [rStr "const", rStr "let", rStr "var"]

/-- `[:=]`. -/
def colonOrEq : Rx := .cls fun c => c == ':' || c == '='

/-- The function-definition patterns of the scope resolver. -/
def tsFunctionPatterns : List Rx :=
  [rseq [.wb, rStr "function", sp1, wgrp 1, sp0, rLp],
   rseq [.wb, constLetVar, sp1, wgrp 1, sp0, rStr "=", sp0, rStr "function", sp0, rLp],
   rseq [.wb, constLetVar, sp1, wgrp 1, sp0, rStr "=", sp0, optAsync, parens, sp0,
     rStr "=>"],
   rseq [.wb, wgrp 1, sp0, colonOrEq, sp0, rStr "function", sp0, rLp],
   rseq [.wb, wgrp 1, sp0, colonOrEq, sp0, optAsync, parens, sp0, rStr "=>"],
   rseq [.wb, .opt (ralt [rStr "public", rStr "private", rStr "protected",
     rStr "static"]), sp0, optAsync, sp0, wgrp 1, sp0, parens, sp0, rOb],
   rseq [.wb, rStr "export", sp1, .opt (rseq [rStr "default", sp1]),
     rStr "function", sp1, wgrp 1, sp0, rLp]]

/-- The control-flow patterns used to disqualify candidate lines. -/
def tsControlFlowPatterns : List Rx :=
  [rseq [.wb, rStr "if", sp0, parens],
   rseq [.wb, rStr "else", sp1, rStr "if", sp0, parens],
   rseq [.wb, rStr "for", sp0, parens],
   rseq [.wb, rStr "while", sp0, parens],
   rseq [.wb, rStr "switch", sp0, parens],
   rseq [.wb, rStr "catch", sp0, parens],
   rseq [.wb, rStr "try", sp0, rOb],
   rseq [.wb, rStr "else", sp0, rOb],
   rseq [.wb, rStr "do", sp0, rOb]]

/-- A line matching some control-flow pattern. -/
def isControlFlowLine (line : Str) : Bool :=
  tsControlFlowPatterns.any fun r => rxTest r line

/-- A line matching some function-definition pattern. -/
def isFunctionLine (line : Str) : Bool :=
  tsFunctionPatterns.any fun r => rxTest r line

/-- The upward candidate collection of the scope resolver: scan up to 50
    lines above the cursor, skip control-flow lines, record function lines,
    then sort ascending by line number. -/
def collectFunctionLines (d : Document) (pos : Pos) : List (Nat × Str) :=
  let cands := ((List.range (min 50 (pos.line + 1))).map fun i => pos.line - i).foldl
    (fun acc lineNum =>
      let lineText := d.lineAt lineNum
      if isControlFlowLine lineText then acc
      else if isFunctionLine lineText then acc ++ [(lineNum, lineText)]
      else acc)
    []
  stableSortBy (fun a b => a.1 < b.1) cands

/-- Brace-depth scan for the matching close brace: `i` is the absolute index
    of the head of the remaining text, `level` the current depth. -/
def scanClose : Str → Nat → Nat → Option Nat
  | [], _, _ => none
  | c :: rest, i, level =>
      if c == lbr then scanClose rest (i + 1) (level + 1)
      else if c == rbr then
        if level == 1 then some i else scanClose rest (i + 1) (level - 1)
      else scanClose rest (i + 1) level

/-- Locate the opening brace for a declaration at `line`: on the line itself,
    or in one of the five following lines (including the arrow-function
    sub-check the source performs there). -/
def findOpenBracePos (d : Document) (line : Nat) : Option Nat :=
  match indexOfChar (d.lineAt line) lbr with
  | some idx => some (d.offsetAt ⟨line, 0⟩ + idx)
  | none =>
      ((List.range 5).map fun i => i + 1).findSome? fun i =>
        if line + i < d.lineCount then
          let nextLineText := d.lineAt (line + i)
          match indexOfChar nextLineText lbr with
          | some bi => some (d.offsetAt ⟨line + i, 0⟩ + bi)
          | none =>
              if containsSub nextLineText "=>".data then
                match indexOfSub nextLineText "=>".data with
                | some arrowIdx =>
                    (indexOfCharFrom nextLineText lbr arrowIdx).map
                      fun b => d.offsetAt ⟨line + i, 0⟩ + b
                | none => none
              else none
        else none

/-- `ContextAnalyzer.getFunctionRangeByLine(document, line)`. -/
def getFunctionRangeByLine (d : Document) (line : Nat) : Option Range :=
  let lineText := d.lineAt line
  match findOpenBracePos d line with
  | none =>
      if containsSub lineText "=>".data && !containsSub lineText [lbr] then
        some ⟨⟨line, 0⟩, ⟨line, lineText.length⟩⟩
      else
        ((List.range 3).map fun i => i + 1).findSome? fun i =>
          if line + i < d.lineCount then
            let nextLineText := d.lineAt (line + i)
            if containsSub nextLineText "=>".data &&
                !containsSub nextLineText [lbr] then
              some ⟨⟨line, 0⟩, ⟨line + i, nextLineText.length⟩⟩
            else none
          else none
  | some obp =>
      match scanClose (d.getText.drop (obp + 1)) (obp + 1) 1 with
      | none => none
      | some endPos => some ⟨⟨line, 0⟩, d.positionAt (endPos + 1)⟩

/-- `ContextAnalyzer.positionInRange(position, range)`. -/
def positionInRange (p : Pos) (r : Range) : Bool :=
  if p.line < r.start.line || r.stop.line < p.line then false
  else if p.line == r.start.line && p.char < r.start.char then false
  else if p.line == r.stop.line && r.stop.char < p.char then false
  else true

/-- `getIndentationLevel(lineText)`: length of the leading whitespace. -/
def getIndentationLevel (line : Str) : Nat := (line.takeWhile isSpaceChar).length

/-- The upward Python scan for a `def `/`class ` line of shallower
    indentation; returns the definition line and its indent. -/
def pyFindDefGo (d : Document) (pos : Pos) (cur : Nat) :
    Nat → Nat → Option (Nat × Nat)
  | 0, _ => none
  | fuel + 1, i =>
      if i ≤ pos.line then
        let lineNum := pos.line - i
        let lineText := d.lineAt lineNum
        if (trimL lineText).isEmpty then pyFindDefGo d pos cur fuel (i + 1)
        else
          let indent := getIndentationLevel lineText
          if (indent < cur || lineNum == pos.line) &&
              (sStarts (trimL lineText) "def ".data ||
                sStarts (trimL lineText) "class ".data) then
            some (lineNum, indent)
          else if indent < cur && 0 < i then none
          else pyFindDefGo d pos cur fuel (i + 1)
      else none

/-- The downward Python scan for the first non-empty line at or below the
    definition's indent; the function body ends on the line before it. -/
def pyFindEndGo (d : Document) (defIndent : Nat) : Nat → Nat → Nat
  | 0, _ => d.lineCount - 1
  | fuel + 1, line =>
      if line < d.lineCount then
        let lineText := d.lineAt line
        if (trimL lineText).isEmpty then pyFindEndGo d defIndent fuel (line + 1)
        else if getIndentationLevel lineText ≤ defIndent then line - 1
        else pyFindEndGo d defIndent fuel (line + 1)
      else d.lineCount - 1

/-- `ContextAnalyzer.getCurrentFunctionOrClassRange(document, position)`. -/
def getCurrentFunctionOrClassRange (d : Document) (pos : Pos) : Option Range :=
  if isTsFamily d.languageId then
    (collectFunctionLines d pos).findSome? fun c =>
      match getFunctionRangeByLine d c.1 with
      | some r => if positionInRange pos r then some r else none
      | none => none
  else if d.languageId == "python".data then
    let cur := getIndentationLevel (d.lineAt pos.line)
    match pyFindDefGo d pos cur 30 0 with
    | none => none
    | some dl =>
        let endLine := pyFindEndGo d dl.2 d.lineCount (dl.1 + 1)
        some ⟨⟨dl.1, 0⟩, ⟨endLine, (d.lineAt endLine).length⟩⟩
  else none

/-- Witness document for the scope resolver: a three-line function containing
    the cursor. -/
def demoScopeDoc : Document :=
  ⟨["function foo() \x7b".data, "  x;".data, "\x7d".data], "typescript".data, []⟩

/-! ### Language-specific analyzers

The remaining methods of the four `LanguageSpecificAnalyzer` implementations
and the generic helpers of `ContextAnalyzer`, needed by
`performEnhancedAnalysis` and `getContext`. -/

/-- Leftmost match of an end-anchored pattern (`s.match(/re$/)`), returning
    its captures. -/
def rxFirstEndAux (r : Rx) (prev : Option Char) (s : Str) : Option Caps :=
  match (mrun r prev s).find? (fun pr => pr.2.2.isEmpty) with
  | some pr => some pr.1
  | none =>
      match s with
      | [] => none
      | c :: t => rxFirstEndAux r (some c) t

/-- `s.match(/re$/)`, as an optional capture list. -/
def rxFirstEnd (r : Rx) (s : Str) : Option Caps := rxFirstEndAux r none s

/-- Match anchored at the start of the string (`s.match(/^re/)`). -/
def rxFirstAt0 (r : Rx) (s : Str) : Option Caps :=
  match mrun r none s with
  | pr :: _ => some pr.1
  | [] => none

/-- `(s.match(/c/g) || []).length` for a single character. -/
def countChar (s : Str) (c : Char) : Nat := (s.filter (· == c)).length

/-- Case-insensitive literal fragment (for `/re/i` patterns). -/
def rStrCI (t : String) : Rx :=
  rseq (t.data.map fun c => .cls fun x => x.toLower == c.toLower)

/-- The body-end offset of a scope match in `TypeScriptAnalyzer`'s and
    `JavaAnalyzer`'s scope analyses: depth-counted scan from the character
    after the match's opening brace; the end stays at the match start when no
    matching close brace exists. -/
def braceBodyEnd (text : Str) (m : RxMatch) : Nat :=
  let k :=
    match indexOfChar (matchedText text m) lbr with
    | some i => i + 1
    | none => 0
  match scanClose (text.drop (m.start + k)) (m.start + k) 1 with
  | some e => e
  | none => m.start

/-- `TypeScriptAnalyzer.analyzeCurrentScope(document, position)`: the last
    function match and last class match whose brace body contains the cursor
    offset determine the scope description. -/
def tsAnalyzeCurrentScope (d : Document) (pos : Pos) : Str :=
  let text := d.getText
  let offset := d.offsetAt pos
  let currentFunction := (tsStructureFunctionPatterns.map Prod.fst).foldl
    (fun acc r =>
      (rxExecAll r text).foldl
        (fun acc m =>
          if m.start < offset && offset < braceBodyEnd text m then
            capGetD m.caps 1
          else acc)
        acc)
    []
  let currentClass := (rxExecAll tsClassPattern text).foldl
    (fun acc m =>
      if m.start < offset && offset < braceBodyEnd text m then
        capGetD m.caps 1
      else acc)
    []
  if !currentClass.isEmpty && !currentFunction.isEmpty then
    "类 ".data ++ currentClass ++ " 的方法 ".data ++ currentFunction ++ " 内".data
  else if !currentClass.isEmpty then "类 ".data ++ currentClass ++ " 内".data
  else if !currentFunction.isEmpty then
    "函数 ".data ++ currentFunction ++ " 内".data
  else "全局作用域".data

/-- `/<(\w+)([^>]*)$/`. -/
def jsxOpenRx : Rx :=
  rseq [.lit ['<'], wgrp 1, .grp 2 (.starC fun c => c != '>')]

/-- The JSX closing-tag pattern (tag name between angle-slash brackets,
    anchored at the end). -/
def jsxCloseRx : Rx := rseq [.lit ['<', '/'], wgrp 1, .lit ['>']]

/-- `/(\w+)\s*\([^)]*$/`. -/
def funcCallEndRx : Rx := rseq [wgrp 1, sp0, rLp, nrp0]

/-- `TypeScriptAnalyzer.analyzeSyntaxContext(document, position,
    beforeCursor, afterCursor)`. -/
def tsAnalyzeSyntaxContext (d : Document) (_pos : Pos) (bc ac : Str) : Str :=
  let react := d.languageId == "typescriptreact".data ||
    d.languageId == "javascriptreact".data
  let tsLike := d.languageId == "typescript".data ||
    d.languageId == "typescriptreact".data
  let jsx1 : Option Str :=
    if react then
      (rxFirstEnd jsxOpenRx bc).map fun caps =>
        "在JSX ".data ++ capGetD caps 1 ++ " 标签内".data
    else none
  let jsx2 : Option Str :=
    if react then
      (rxFirstEnd jsxCloseRx bc).map fun caps =>
        "在JSX ".data ++ capGetD caps 1 ++ " 标签后".data
    else none
  let jsx3 : Option Str :=
    if react && containsSub bc [lbr] && !containsSub ac [rbr] then
      some "在JSX表达式内".data
    else none
  let ts1 : Option Str :=
    if tsLike && containsSub bc [':'] && !containsSub bc [';'] &&
        !containsSub bc ['?'] && !containsSub bc [','] then
      some "在TypeScript类型注解内".data
    else none
  let par : Option Str :=
    if rxTestEnd (rseq [rLp, sp0]) bc ||
        (containsSub bc ['('] && !containsSub ac [')']) then
      some (match rxFirstEnd funcCallEndRx bc with
        | some caps => "在函数 ".data ++ capGetD caps 1 ++ " 的参数列表中".data
        | none => "在函数参数列表中".data)
    else none
  let obj : Option Str :=
    if (rxTestEnd (rseq [rOb, sp0]) bc ||
          (containsSub bc [lbr] && !containsSub ac [rbr])) &&
        rxTestEnd (rseq [rStr "=", sp0, rOb, sp0]) bc then
      some "在对象字面量中".data
    else none
  let arr : Option Str :=
    if rxTestEnd (rseq [.lit ['['], sp0]) bc ||
        (containsSub bc ['['] && !containsSub ac [']']) then
      some "在数组字面量中".data
    else none
  let tmpl : Option Str :=
    if rxTestEnd (rseq [.lit [bq], .starC (fun c => c != bq)]) bc &&
        !containsSub ac [bq] then
      some "在模板字符串中".data
    else none
  let strq : Option Str :=
    if (rxTestEnd (rseq [.lit [sq], .starC (fun c => c != sq)]) bc &&
          !containsSub ac [sq]) ||
        (rxTestEnd (rseq [.lit [dq], .starC (fun c => c != dq)]) bc &&
          !containsSub ac [dq]) then
      some "在字符串中".data
    else none
  (((((((((jsx1).orElse fun _ => jsx2).orElse fun _ => jsx3).orElse
    fun _ => ts1).orElse fun _ => par).orElse fun _ => obj).orElse
    fun _ => arr).orElse fun _ => tmpl).orElse fun _ => strq).getD []

/-- `ContextAnalyzer.analyzeSyntaxContextGeneric(beforeCursor, afterCursor)`;
    the source only logs `afterCursor`. -/
def analyzeSyntaxContextGeneric (bc _ac : Str) : Str :=
  let openParens := countChar bc '('
  let closeParens := countChar bc ')'
  let openBraces := countChar bc lbr
  let closeBraces := countChar bc rbr
  let openBrackets := countChar bc '['
  let closeBrackets := countChar bc ']'
  let singleQuotes := countChar bc sq
  let doubleQuotes := countChar bc dq
  let backTicks := countChar bc bq
  if closeParens < openParens then
    match rxFirstEnd funcCallEndRx bc with
    | some caps => "在函数 ".data ++ capGetD caps 1 ++ " 的参数列表中".data
    | none => "在括号内部".data
  else if closeBraces < openBraces then
    if rxTestEnd (rseq [rOb, .starC fun c => c != lbr]) bc then
      "在对象字面量中".data
    else "在代码块内部".data
  else if closeBrackets < openBrackets then "在数组字面量中".data
  else if singleQuotes % 2 != 0 then "在单引号字符串中".data
  else if doubleQuotes % 2 != 0 then "在双引号字符串中".data
  else if backTicks % 2 != 0 then "在模板字符串中".data
  else if rxTestEnd (rseq [w1, sp0, rStr "=", sp0]) bc then
    "在赋值表达式中".data
  else if rxTestEnd (rseq [rStrCI "return", sp1]) bc then
    "在return语句后".data
  else if rxTestEnd (rseq [rStrCI "if", sp0, rLp, sp0]) bc ||
      rxTestEnd (rseq [rStrCI "else if", sp0, rLp, sp0]) bc then
    "在if条件表达式中".data
  else "在常规代码区域".data

/-- `ContextAnalyzer.analyzeImportsGeneric(code, languageId)`. -/
def analyzeImportsGeneric (code lang : Str) : List Str :=
  let imports :=
    if isTsFamily lang then
      (rxExecAll (rseq [rStr "import", sp1,
        ralt
          [rseq [rOb, .starC (fun c => c != rbr), rCb],
           rseq [.lit ['*'], sp1, rStr "as", sp1, w1],
           w1],
        sp1, rStr "from", sp1, .cls isQuote,
        .grp 1 (.plusC fun c => !isQuote c), .cls isQuote]) code).map
        (matchedText code)
    else if lang == "python".data then
      ((rxExecAll (rseq [rStr "import", sp1, wgrp 1,
          .opt (rseq [sp1, rStr "as", sp1, wgrp 2])]) code).map
        (matchedText code)) ++
      ((rxExecAll (rseq [rStr "from", sp1,
          .grp 1 (.plusC fun c => isWordChar c || c == '.'), sp1,
          rStr "import", sp1,
          .grp 2 (.plusC fun c => !(c == '#' || c == '\n'))]) code).map
        (matchedText code))
    else
      ((rxExecAll (rseq [rStr "import", sp1,
          .plusC (fun c => c != ';'), .lit [';']]) code).map
        (matchedText code)) ++
      ((rxExecAll (rseq [rStr "#include", sp0,
          .cls (fun c => c == '<' || c == dq),
          .plusC (fun c => !(c == '>' || c == dq)),
          .cls (fun c => c == '>' || c == dq)]) code).map
        (matchedText code)) ++
      ((rxExecAll (rseq [rStr "using", sp1,
          .plusC (fun c => c != ';'), .lit [';']]) code).map
        (matchedText code))
  if (lang == "javascript".data || lang == "typescript".data) &&
      containsSub code "vscode".data &&
      !imports.any (fun imp => containsSub imp "vscode".data) then
    imports ++ ["import * as vscode from ".data ++ sq :: "vscode".data ++ [sq]]
  else imports

/-- Python function definition pattern (`def` name, parameter list, colon). -/
def pyFunctionPattern : Rx :=
  rseq [rStr "def", sp1, wgrp 1, sp0, .lit ['('], nrp0, .lit [')', ':']]

/-- Python class definition pattern (`class` name, optional parent list,
    colon). -/
def pyClassPattern : Rx :=
  rseq [rStr "class", sp1, wgrp 1,
    .opt (rseq [sp0, .lit ['('], nrp0, .lit [')']]), .lit [':']]

/-- `/import\s+(\w+)(?:\s+as\s+(\w+))?/`. -/
def pyImportPattern : Rx :=
  rseq [rStr "import", sp1, wgrp 1, .opt (rseq [sp1, rStr "as", sp1, wgrp 2])]

/-- `/from\s+([\w.]+)\s+import\s+([^#\n]+)/`. -/
def pyFromImportPattern : Rx :=
  rseq [rStr "from", sp1, .grp 1 (.plusC fun c => isWordChar c || c == '.'),
    sp1, rStr "import", sp1, .grp 2 (.plusC fun c => !(c == '#' || c == '\n'))]

/-- `PythonAnalyzer.analyzeCodeStructure(document, position)`. -/
def pyAnalyzeCodeStructure (d : Document) : List CodeStructureInfo :=
  let text := d.getText
  let funcs := (rxExecAll pyFunctionPattern text).map fun m =>
    (⟨"function".data, capGetD m.caps 1, m.start⟩ : CodeStructureInfo)
  let classes := (rxExecAll pyClassPattern text).map fun m =>
    (⟨"class".data, capGetD m.caps 1, m.start⟩ : CodeStructureInfo)
  let imports :=
    ((rxExecAll pyImportPattern text).map fun m =>
      (⟨"import".data, capGetD m.caps 1, m.start⟩ : CodeStructureInfo)) ++
    ((rxExecAll pyFromImportPattern text).map fun m =>
      (⟨"import-from".data, capGetD m.caps 2, m.start⟩ : CodeStructureInfo))
  sortByPosition (funcs ++ classes ++ imports)

/-- Start-anchored `def` line pattern used by the Python scope scan. -/
def pyDefLineRx : Rx := rseq [sp0, rStr "def", sp1, wgrp 1]

/-- Start-anchored `class` line pattern used by the Python scope scan. -/
def pyClassLineRx : Rx := rseq [sp0, rStr "class", sp1, wgrp 1]

/-- The upward loop of `PythonAnalyzer.analyzeCurrentScope`: fuel `n + 1`
    processes line `n` (the loop runs from `position.line - 1` down to `0`),
    carrying the function and class names found so far. -/
def pyScopeGo (d : Document) (cur : Nat) : Nat → Str → Str → (Str × Str)
  | 0, fn, cls => (fn, cls)
  | i + 1, fn, cls =>
      let lineText := d.lineAt i
      let indent := getIndentationLevel lineText
      if indent < cur then
        let fn' :=
          if fn.isEmpty then
            match rxFirstAt0 pyDefLineRx lineText with
            | some caps => capGetD caps 1
            | none => fn
          else fn
        let cls' :=
          if cls.isEmpty then
            match rxFirstAt0 pyClassLineRx lineText with
            | some caps => capGetD caps 1
            | none => cls
          else cls
        if (!fn'.isEmpty && !cls'.isEmpty) || indent == 0 then (fn', cls')
        else pyScopeGo d cur i fn' cls'
      else pyScopeGo d cur i fn cls

/-- `PythonAnalyzer.analyzeCurrentScope(document, position)`. -/
def pyAnalyzeCurrentScope (d : Document) (pos : Pos) : Str :=
  let cur := getIndentationLevel (d.lineAt pos.line)
  let fc := pyScopeGo d cur pos.line [] []
  let functionName := fc.1
  let className := fc.2
  if !className.isEmpty && !functionName.isEmpty then
    "类 ".data ++ className ++ " 的方法 ".data ++ functionName ++ " 内".data
  else if !className.isEmpty then "类 ".data ++ className ++ " 内".data
  else if !functionName.isEmpty then
    "函数 ".data ++ functionName ++ " 内".data
  else "全局作用域".data

/-- `PythonAnalyzer.analyzeRelatedImports(document, position, symbols)`. -/
def pyAnalyzeRelatedImports (d : Document) (symbols : List Str) : List Str :=
  let text := d.getText
  let part1 := (rxExecAll pyImportPattern text).filterMap fun m =>
    let moduleName := capGetD m.caps 1
    let a := capGetD m.caps 2
    let aliasName := if a.isEmpty then moduleName else a
    if symbols.any (fun symbol =>
        let p := stripMarkers symbol
        p == aliasName || sStarts p (aliasName ++ ['.'])) then
      some ("import ".data ++ moduleName ++
        (if aliasName != moduleName then " as ".data ++ aliasName else []))
    else none
  let part2 := (rxExecAll pyFromImportPattern text).flatMap fun m =>
    let moduleName := capGetD m.caps 1
    let importItems := (splitChar ',' (capGetD m.caps 2)).map trimL
    importItems.filterMap fun importItem =>
      let parts := (splitSep " as ".data importItem).map trimL
      let name := parts.getD 0 []
      let aliasName := parts.getD 1 []
      let importName := if aliasName.isEmpty then name else aliasName
      if symbols.any (fun symbol => stripMarkers symbol == importName) then
        some ("from ".data ++ moduleName ++ " import ".data ++ importItem)
      else none
  part1 ++ part2

/-- `PythonAnalyzer.analyzeSyntaxContext(document, position, beforeCursor,
    afterCursor)`. -/
def pyAnalyzeSyntaxContext (bc ac : Str) : Str :=
  let par : Option Str :=
    if rxTestEnd (rseq [rLp, sp0]) bc ||
        (containsSub bc ['('] && !containsSub ac [')']) then
      some (match rxFirstEnd funcCallEndRx bc with
        | some caps => "在函数 ".data ++ capGetD caps 1 ++ " 的参数列表中".data
        | none => "在函数参数列表中".data)
    else none
  let lst : Option Str :=
    if rxTestEnd (rseq [.lit ['['], sp0]) bc ||
        (containsSub bc ['['] && !containsSub ac [']']) then
      some "在列表中".data
    else none
  let dict : Option Str :=
    if rxTestEnd (rseq [rOb, sp0]) bc ||
        (containsSub bc [lbr] && !containsSub ac [rbr]) then
      some "在字典中".data
    else none
  let strq : Option Str :=
    if (rxTestEnd (rseq [.lit [sq], .starC (fun c => c != sq)]) bc &&
          !containsSub ac [sq]) ||
        (rxTestEnd (rseq [.lit [dq], .starC (fun c => c != dq)]) bc &&
          !containsSub ac [dq]) then
      some "在字符串中".data
    else none
  let fstr : Option Str :=
    if rxTestEnd (rseq [.lit ['f'], .cls isQuote,
          .starC (fun c => !isQuote c), rOb, sp0]) bc &&
        !containsSub ac [rbr] then
      some "在f-string表达式中".data
    else none
  let ifc : Option Str :=
    if rxTestEnd (rseq [rStr "if", sp1]) bc then
      some "在if条件表达式中".data
    else none
  let forc : Option Str :=
    if rxTestEnd (rseq [rStr "for", sp1]) bc then
      some "在for循环迭代表达式中".data
    else none
  ((((((par.orElse fun _ => lst).orElse fun _ => dict).orElse
    fun _ => strq).orElse fun _ => fstr).orElse fun _ => ifc).orElse
    fun _ => forc).getD []

/-- Exec-loop matches of a global regex starting at `lastIndex = k`
    (`pattern.lastIndex = k` before the loop). -/
def rxExecAllFrom (r : Rx) (text : Str) (k : Nat) : List RxMatch :=
  execAllAux r (text.length + 1)
    (if k == 0 then none else (text.drop (k - 1)).head?) (text.drop k) k

/-- `(?:\s+extends\s+(\w+))?(?:\s+implements\s+([^{]+))?` with groups `g1`
    and `g2`. -/
def javaExtendsImpl (g1 g2 : Nat) : Rx :=
  rseq [.opt (rseq [sp1, rStr "extends", sp1, wgrp g1]),
    .opt (rseq [sp1, rStr "implements", sp1,
      .grp g2 (.plusC fun c => c != lbr)])]

/-- Java class declaration pattern for one visibility keyword. -/
def javaClassPattern (vis : String) : Rx :=
  rseq [rStr vis, sp1, rStr "class", sp1, wgrp 1, javaExtendsImpl 2 3]

/-- Java method declaration pattern for one visibility keyword (return type
    group 1, name group 2, body brace). -/
def javaMethodPattern (vis : String) : Rx :=
  rseq [rStr vis, sp1, .opt (rseq [rStr "static", sp1]),
    .opt (rseq [rStr "final", sp1]),
    .opt (rseq [.lit ['<'], .plusC (fun c => c != '>'), .lit ['>'], sp1]),
    wgrp 1, sp1, wgrp 2, sp0, rLp, nrp0, .lit [')'],
    .opt (rseq [sp1, rStr "throws", sp1, .plusC fun c => c != lbr]),
    sp0, rOb]

/-- `/import\s+(static\s+)?([\w.]+)(?:\.\*)?;/`. -/
def javaImportPattern : Rx :=
  rseq [rStr "import", sp1, .opt (.grp 1 (rseq [rStr "static", sp1])),
    .grp 2 (.plusC fun c => isWordChar c || c == '.'),
    .opt (rStr ".*"), .lit [';']]

/-- `JavaAnalyzer.analyzeCodeStructure(document, position)`. -/
def javaAnalyzeCodeStructure (d : Document) : List CodeStructureInfo :=
  let text := d.getText
  let classes :=
    ([(javaClassPattern "public", "class"),
      (javaClassPattern "private", "private-class"),
      (javaClassPattern "protected", "protected-class"),
      (rseq [rStr "public", sp1, rStr "interface", sp1, wgrp 1,
        .opt (rseq [sp1, rStr "extends", sp1,
          .grp 2 (.plusC fun c => c != lbr)])], "interface"),
      (rseq [rStr "public", sp1, rStr "enum", sp1, wgrp 1], "enum")]
     : List (Rx × String)).flatMap fun p =>
      (rxExecAll p.1 text).map fun m =>
        (⟨p.2.data, capGetD m.caps 1, m.start⟩ : CodeStructureInfo)
  let methods :=
    ([(javaMethodPattern "public", "public-method"),
      (javaMethodPattern "private", "private-method"),
      (javaMethodPattern "protected", "protected-method")]
     : List (Rx × String)).flatMap fun p =>
      (rxExecAll p.1 text).map fun m =>
        (⟨p.2.data, capGetD m.caps 2, m.start⟩ : CodeStructureInfo)
  let imports := (rxExecAll javaImportPattern text).map fun m =>
    (⟨(if (capGet m.caps 1).isSome then "static-import".data else "import".data),
      capGetD m.caps 2, m.start⟩ : CodeStructureInfo)
  sortByPosition (classes ++ methods ++ imports)

/-- `/(?:public|private|protected)\s+class\s+(\w+)/`. -/
def javaScopeClassPattern : Rx :=
  rseq [ralt [rStr "public", rStr "private", rStr "protected"], sp1,
    rStr "class", sp1, wgrp 1]

/-- The method pattern of `JavaAnalyzer.analyzeCurrentScope` (no body
    brace requirement). -/
def javaScopeMethodPattern : Rx :=
  rseq [ralt [rStr "public", rStr "private", rStr "protected"], sp1,
    .opt (rseq [rStr "static", sp1]), .opt (rseq [rStr "final", sp1]),
    .opt (rseq [.lit ['<'], .plusC (fun c => c != '>'), .lit ['>'], sp1]),
    wgrp 1, sp1, wgrp 2, sp0, rLp, nrp0, .lit [')']]

/-- `JavaAnalyzer.analyzeCurrentScope(document, position)`: the first class
    whose brace body contains the cursor offset, then the first method
    (searched from the class body's opening brace) whose body contains it. -/
def javaAnalyzeCurrentScope (d : Document) (pos : Pos) : Str :=
  let text := d.getText
  let offset := d.offsetAt pos
  let found := (rxExecAll javaScopeClassPattern text).findSome? fun m =>
    let classBodyStart := (indexOfCharFrom text lbr m.start).getD 0
    if classBodyStart == 0 then none
    else
      let classBodyEnd :=
        (scanClose (text.drop (classBodyStart + 1)) (classBodyStart + 1) 1).getD 0
      if classBodyStart < offset && offset < classBodyEnd then
        let currentMethod :=
          (((rxExecAllFrom javaScopeMethodPattern text classBodyStart).takeWhile
              fun mm => mm.start ≤ classBodyEnd).findSome? fun mm =>
            let methodBodyStart := (indexOfCharFrom text lbr mm.start).getD 0
            if methodBodyStart == 0 then none
            else
              let methodBodyEnd :=
                (scanClose (text.drop (methodBodyStart + 1))
                  (methodBodyStart + 1) 1).getD 0
              if methodBodyStart < offset && offset < methodBodyEnd then
                some (capGetD mm.caps 2)
              else none).getD []
        some (capGetD m.caps 1, currentMethod)
      else none
  let currentClass := (found.map Prod.fst).getD []
  let currentMethod := (found.map Prod.snd).getD []
  if !currentClass.isEmpty && !currentMethod.isEmpty then
    "类 ".data ++ currentClass ++ " 的方法 ".data ++ currentMethod ++ " 内".data
  else if !currentClass.isEmpty then "类 ".data ++ currentClass ++ " 内".data
  else if !currentMethod.isEmpty then
    "方法 ".data ++ currentMethod ++ " 内".data
  else "包级作用域".data

/-- `JavaAnalyzer.analyzeRelatedImports(document, position, symbols)`. -/
def javaAnalyzeRelatedImports (d : Document) (symbols : List Str) : List Str :=
  let text := d.getText
  (rxExecAll javaImportPattern text).filterMap fun m =>
    let isStaticImport := (capGet m.caps 1).isSome
    let importPath := capGetD m.caps 2
    let parts := splitChar '.' importPath
    let lastName := parts.getLast?.getD []
    let isWildcardImport := containsSub (matchedText text m) ".*".data
    symbols.findSome? fun symbol =>
      let plainSymbol := stripMarkers symbol
      if isStaticImport then
        if isWildcardImport then
          some ("import static ".data ++ importPath ++ ".*;".data)
        else if 1 < parts.length && plainSymbol == lastName then
          some ("import static ".data ++ importPath ++ [';'])
        else none
      else
        if lastName == plainSymbol ||
            (isWildcardImport && 1 < parts.length &&
              sStarts plainSymbol (parts.getD (parts.length - 2) [] ++ ['.'])) then
          some ("import ".data ++ importPath ++
            (if isWildcardImport then ".*".data else []) ++ [';'])
        else none

/-- `JavaAnalyzer.analyzeSyntaxContext(document, position, beforeCursor,
    afterCursor)`. -/
def javaAnalyzeSyntaxContext (bc ac : Str) : Str :=
  let par : Option Str :=
    if rxTestEnd (rseq [rLp, sp0]) bc ||
        (containsSub bc ['('] && !containsSub ac [')']) then
      some (match rxFirstEnd funcCallEndRx bc with
        | some caps => "在方法 ".data ++ capGetD caps 1 ++ " 的参数列表中".data
        | none => "在方法参数列表中".data)
    else none
  let blk : Option Str :=
    if rxTestEnd (rseq [rOb, sp0]) bc ||
        (containsSub bc [lbr] && !containsSub ac [rbr]) then
      if rxTestEnd (rseq [rStr "new", sp1, w1, sp0, .lit ['['],
          .starC (fun c => c != ']'), .lit [']'], sp0, rOb, sp0]) bc then
        some "在数组初始化中".data
      else some "在代码块或初始化块中".data
    else none
  let strd : Option Str :=
    if rxTestEnd (rseq [.lit [dq], .starC (fun c => c != dq)]) bc &&
        !containsSub ac [dq] then
      some "在字符串中".data
    else none
  let ifc : Option Str :=
    if rxTestEnd (rseq [rStr "if", sp0, rLp, sp0]) bc then
      some "在if条件表达式中".data
    else none
  let forc : Option Str :=
    if rxTestEnd (rseq [rStr "for", sp0, rLp, sp0]) bc then
      some "在for循环表达式中".data
    else none
  let gen : Option Str :=
    if rxTestEnd (rseq [.lit ['<'], .starC fun c => c != '>']) bc &&
        !containsSub ac ['>'] then
      some "在泛型参数中".data
    else none
  let ann : Option Str :=
    if rxTestEnd (rseq [.lit ['@'], w1, sp0, rLp, sp0]) bc &&
        !containsSub ac [')'] then
      some (match rxFirst (rseq [.lit ['@'], wgrp 1]) bc with
        | some m => "在@".data ++ capGetD m.caps 1 ++ "注解参数中".data
        | none => "在注解参数中".data)
    else none
  ((((((par.orElse fun _ => blk).orElse fun _ => strd).orElse
    fun _ => ifc).orElse fun _ => forc).orElse fun _ => gen).orElse
    fun _ => ann).getD []

/-- The generic function patterns of `GenericAnalyzer.analyzeCodeStructure`. -/
def genFunctionPatterns : List (Rx × String) :=
  [(rseq [rStr "function", sp1, wgrp 1, sp0, rLp, nrp0, .lit [')']],
    "function"),
   (rseq [wgrp 1, sp0, rStr "=", sp0, rStr "function", sp0, rLp, nrp0,
     .lit [')']], "function"),
   (rseq [wgrp 1, sp0, .lit [':'], sp0, rStr "function", sp0, rLp, nrp0,
     .lit [')']], "method")]

/-- `GenericAnalyzer.analyzeCodeStructure(document, position)`. -/
def genAnalyzeCodeStructure (d : Document) : List CodeStructureInfo :=
  let text := d.getText
  let funcs := genFunctionPatterns.flatMap fun p =>
    (rxExecAll p.1 text).map fun m =>
      (⟨p.2.data, capGetD m.caps 1, m.start⟩ : CodeStructureInfo)
  let classes := (rxExecAll (rseq [rStr "class", sp1, wgrp 1]) text).map
    fun m => (⟨"class".data, capGetD m.caps 1, m.start⟩ : CodeStructureInfo)
  sortByPosition (funcs ++ classes)

/-- The line pattern of `GenericAnalyzer.analyzeCurrentScope` for function
    definitions (three alternatives with one capture each). -/
def genFuncLineRx : Rx :=
  ralt
    [rseq [rStr "function", sp1, wgrp 1],
     rseq [wgrp 2, sp0, rStr "=", sp0, rStr "function"],
     rseq [wgrp 3, sp0, .lit [':'], sp0, rStr "function"]]

/-- The upward loop of `GenericAnalyzer.analyzeCurrentScope`: fuel counts the
    remaining lines to inspect, `i` is the current line. -/
def genScopeGo (d : Document) : Nat → Nat → (Str × Str)
  | 0, _ => ([], [])
  | fuel + 1, i =>
      let lineText := d.lineAt i
      match rxFirst genFuncLineRx lineText with
      | some m =>
          let n1 := capGetD m.caps 1
          let n2 := if n1.isEmpty then capGetD m.caps 2 else n1
          let n3 := if n2.isEmpty then capGetD m.caps 3 else n2
          ("函数".data, n3)
      | none =>
          match rxFirst (rseq [rStr "class", sp1, wgrp 1]) lineText with
          | some m => ("类".data, capGetD m.caps 1)
          | none =>
              if containsSub lineText [lbr] && !containsSub lineText [rbr] then
                match rxFirst (rseq [wgrp 1,
                    .opt (rseq [sp0, rLp, nrp0, .lit [')']]), sp0, rOb])
                    lineText with
                | some m => ("代码块".data, capGetD m.caps 1)
                | none => ([], [])
              else
                match i with
                | 0 => ([], [])
                | i' + 1 => genScopeGo d fuel i'

/-- `GenericAnalyzer.analyzeCurrentScope(document, position)`: scans up to 21
    lines upward from the cursor line (down to `max(0, line - 20)`). -/
def genAnalyzeCurrentScope (d : Document) (pos : Pos) : Str :=
  let low := pos.line - 20
  let fc := genScopeGo d (pos.line + 1 - low) pos.line
  let blockType := fc.1
  let blockName := fc.2
  if !blockType.isEmpty && !blockName.isEmpty then
    blockType ++ [' '] ++ blockName ++ " 内".data
  else if !blockType.isEmpty then blockType ++ "内".data
  else "全局作用域".data

/-- `GenericAnalyzer.analyzeRelatedImports(document, position, symbols)`:
    pushes the whole match of five generic import patterns. -/
def genAnalyzeRelatedImports (d : Document) : List Str :=
  let text := d.getText
  (([rseq [rStr "import", sp1, .grp 1 (.plusC fun c => c != ';'), .lit [';']],
     rseq [rStr "import", sp1, .grp 1 (.plusC fun c => c != ';'),
       .opt (rseq [rStr "from", sp1, .cls isQuote,
         .plusC (fun c => !isQuote c), .cls isQuote])],
     rseq [rStr "require", sp0, rLp, sp0, .cls isQuote,
       .grp 1 (.plusC fun c => !isQuote c), .cls isQuote, sp0, .lit [')']],
     rseq [rStr "#include", sp0, .cls (fun c => c == '<' || c == dq),
       .grp 1 (.plusC fun c => !(c == '>' || c == dq)),
       .cls (fun c => c == '>' || c == dq)],
     rseq [rStr "using", sp1, .grp 1 (.plusC fun c => c != ';'), .lit [';']]]
    : List Rx)).flatMap fun r =>
      (rxExecAll r text).map (matchedText text)

/-- `GenericAnalyzer.analyzeSyntaxContext(document, position, beforeCursor,
    afterCursor)`. -/
def genAnalyzeSyntaxContext (bc : Str) : Str :=
  if countChar bc ')' < countChar bc '(' then "在括号内".data
  else if countChar bc rbr < countChar bc lbr then "在花括号内".data
  else if countChar bc ']' < countChar bc '[' then "在方括号内".data
  else if countChar bc sq % 2 != 0 then "在单引号字符串内".data
  else if countChar bc dq % 2 != 0 then "在双引号字符串内".data
  else "在代码区域".data

/-! ### Enhanced scope analysis and the analysis driver -/

/-- The nine scope patterns of `ContextAnalyzer.analyzeCurrentScopeEnhanced`.
    These regexes are created without the global flag in the source. -/
def enhScopePatterns : List Rx :=
  [rseq [.wb, rStr "function", sp1, wgrp 1, sp0, rLp],
   rseq [.wb, constLetVar, sp1, wgrp 1, sp0, rStr "=", sp0, rStr "function",
     sp0, rLp],
   rseq [.wb, constLetVar, sp1, wgrp 1, sp0, rStr "=", sp0,
     .opt (rseq [rStr "async", sp0]), rLp, nrp0, .lit [')'], sp0, rStr "=>"],
   rseq [.wb, wgrp 1, sp0, .lit [':'], sp0, .opt (rseq [rStr "async", sp0]),
     rLp, nrp0, .lit [')'], sp0, rStr "=>"],
   rseq [.wb, wgrp 1, sp0, .lit [':'], sp0, rStr "function", sp0, rLp],
   rseq [.wb, rStr "class", sp1, wgrp 1],
   rseq [.wb, rStr "export", sp1, .opt (rseq [rStr "default", sp1]),
     rStr "function", sp1, wgrp 1],
   rseq [.wb, rStr "provideInlineCompletionItems", sp0, .lit [':'], sp0,
     .opt (rseq [rStr "async", sp0]), rLp],
   rseq [.wb, rStr "inlineCompletionProvider", sp0, .opt (rStr "="), sp0,
     rStr "function"]]

/-- `ContextAnalyzer.analyzeCurrentScopeEnhanced(document, position,
    beforeCode)`.  The source iterates `while ((match = pattern.exec(
    beforeCode)) !== null)` over patterns that lack the global flag, so
    `exec` keeps returning the same first match and the loop never exits
    once any pattern matches; `none` models that non-termination.  When no
    pattern matches, every loop body runs zero times, `scopes` stays empty,
    and the global-scope fallback is returned. -/
def analyzeCurrentScopeEnhanced (beforeCode : Str) : Option Str :=
  if enhScopePatterns.any (fun r => rxTest r beforeCode) then none
  else some "全局作用域".data

/-- `ContextAnalyzer.analyzeNearbySymbols(document, position, beforeCode,
    afterCode)`; the embedded branches are total, so the surrounding
    try/catch is never exercised. -/
def analyzeNearbySymbols (d : Document) (pos : Pos) (beforeCode afterCode : Str) :
    List Str :=
  let languageId := d.languageId
  if !beforeCode.isEmpty || !afterCode.isEmpty then
    extractSymbolsFromText afterCode languageId
      (extractSymbolsFromText beforeCode languageId [] true) false
  else
    let blockSyms :=
      match getCurrentFunctionOrClassRange d pos with
      | some r =>
          ((List.range (r.stop.line + 1 - r.start.line)).map
            (r.start.line + ·)).foldl
            (fun st i => extractSymbolsFromLine (d.lineAt i) languageId st false)
            []
      | none => []
    let startLine := pos.line - 30
    let endLine := min (d.lineCount - 1) (pos.line + 30)
    ((List.range (endLine + 1 - startLine)).map (startLine + ·)).foldl
      (fun st i =>
        if (if pos.line ≤ i then i - pos.line else pos.line - i) ≤ 8 then
          extractSymbolsFromLine (d.lineAt i) languageId st true
        else extractSymbolsFromLine (d.lineAt i) languageId st false)
      blockSyms

/-- The result record of `performEnhancedAnalysis`. -/
structure EnhancedAnalysisResult where
  relevantSymbols : List Str
  codeStructure : List CodeStructureInfo
  currentScope : Str
  relatedImports : List Str
  syntaxContext : Str
deriving Repr

/-- A `LanguageSpecificAnalyzer` as `performEnhancedAnalysis` sees one: each
    method may return normally or throw (`Except.error`). -/
structure AnalyzerImpl where
  analyzeCodeStructure : Document → Pos → Except Unit (List CodeStructureInfo)
  analyzeCurrentScope : Document → Pos → Except Unit Str
  analyzeRelatedImports : Document → Pos → List Str → Except Unit (List Str)
  analyzeSyntaxContext : Document → Pos → Str → Str → Except Unit Str

/-- The analyzer kinds `getLanguageAnalyzer` can create. -/
inductive AnalyzerKind
  | ts
  | python
  | java
  | generic
deriving DecidableEq, Repr

/-- The `switch (languageId)` of `getLanguageAnalyzer` that creates a new
    analyzer. -/
def createAnalyzerKind (lang : Str) : AnalyzerKind :=
  if lang == "javascript".data || lang == "typescript".data ||
      lang == "javascriptreact".data || lang == "typescriptreact".data then
    .ts
  else if lang == "python".data then .python
  else if lang == "java".data then .java
  else .generic

/-- The concrete (never-throwing) analyzer of each kind, built from the
    embedded methods. -/
def implOfKind : AnalyzerKind → AnalyzerImpl
  | .ts =>
      ⟨fun d _ => .ok (tsAnalyzeCodeStructure d),
       fun d p => .ok (tsAnalyzeCurrentScope d p),
       fun d _ syms => .ok (tsAnalyzeRelatedImports d syms),
       fun d p bc ac => .ok (tsAnalyzeSyntaxContext d p bc ac)⟩
  | .python =>
      ⟨fun d _ => .ok (pyAnalyzeCodeStructure d),
       fun d p => .ok (pyAnalyzeCurrentScope d p),
       fun d _ syms => .ok (pyAnalyzeRelatedImports d syms),
       fun _ _ bc ac => .ok (pyAnalyzeSyntaxContext bc ac)⟩
  | .java =>
      ⟨fun d _ => .ok (javaAnalyzeCodeStructure d),
       fun d p => .ok (javaAnalyzeCurrentScope d p),
       fun d _ syms => .ok (javaAnalyzeRelatedImports d syms),
       fun _ _ bc ac => .ok (javaAnalyzeSyntaxContext bc ac)⟩
  | .generic =>
      ⟨fun d _ => .ok (genAnalyzeCodeStructure d),
       fun d p => .ok (genAnalyzeCurrentScope d p),
       fun d _ _ => .ok (genAnalyzeRelatedImports d),
       fun _ _ bc _ => .ok (genAnalyzeSyntaxContext bc)⟩

/-- The analyzer cache `this.languageAnalyzers` (a `Map` in insertion
    order). -/
abbrev AnalyzerCache := List (Str × AnalyzerKind)

/-- `ContextAnalyzer.getLanguageAnalyzer(languageId)` with its cache made
    explicit: a hit returns the cached analyzer, a miss creates one and
    stores it. -/
def getLanguageAnalyzer (cache : AnalyzerCache) (lang : Str) :
    AnalyzerKind × AnalyzerCache :=
  match cache.find? (fun pr => pr.1 == lang) with
  | some pr => (pr.2, cache)
  | none =>
      let k := createAnalyzerKind lang
      (k, cache ++ [(lang, k)])

/-- `ContextAnalyzer.performEnhancedAnalysis(document, position, beforeCode,
    beforeCursor, afterCursor, afterCode)`, parametric over the analyzer
    implementation.  `none` models non-termination, which occurs exactly
    when the JavaScript branch reaches `analyzeCurrentScopeEnhanced` and
    that helper's exec loop never exits. -/
def performEnhancedAnalysis (impl : AnalyzerImpl) (d : Document) (pos : Pos)
    (beforeCode beforeCursor afterCursor afterCode : Str) :
    Option EnhancedAnalysisResult :=
  let languageId := d.languageId
  let relevantSymbols := analyzeNearbySymbols d pos beforeCode afterCode
  let base : EnhancedAnalysisResult := ⟨relevantSymbols, [], [], [], []⟩
  let step1 : Option EnhancedAnalysisResult :=
    if isTsFamily languageId then
      let r1 := { base with
        codeStructure := analyzeJSCodeStructure beforeCode afterCode }
      match impl.analyzeCurrentScope d pos with
      | .ok s =>
          if s.isEmpty || s == "全局作用域".data then
            match analyzeCurrentScopeEnhanced beforeCode with
            | some s2 => some { r1 with currentScope := s2 }
            | none => none
          else some { r1 with currentScope := s }
      | .error _ => some { r1 with currentScope := "全局作用域".data }
    else
      match impl.analyzeCodeStructure d pos with
      | .error _ => some base
      | .ok cs =>
          match impl.analyzeCurrentScope d pos with
          | .error _ => some { base with codeStructure := cs }
          | .ok sc =>
              match impl.analyzeRelatedImports d pos relevantSymbols with
              | .error _ =>
                  some { base with codeStructure := cs, currentScope := sc }
              | .ok ri =>
                  match impl.analyzeSyntaxContext d pos beforeCursor
                      afterCursor with
                  | .error _ =>
                      some { base with
                        codeStructure := cs
                        currentScope := sc
                        relatedImports := ri }
                  | .ok sx =>
                      some { base with
                        codeStructure := cs
                        currentScope := sc
                        relatedImports := ri
                        syntaxContext := sx }
  match step1 with
  | none => none
  | some r0 =>
      let ctrl := analyzeControlStructures (beforeCode ++ '\n' :: afterCode)
        languageId
      let r1 :=
        if r0.codeStructure.isEmpty then { r0 with codeStructure := ctrl }
        else r0
      let sxg := analyzeSyntaxContextGeneric beforeCursor afterCursor
      let r2 :=
        if r1.syntaxContext.isEmpty then { r1 with syntaxContext := sxg }
        else r1
      let r3 :=
        if r2.relatedImports.isEmpty then
          match impl.analyzeRelatedImports d pos relevantSymbols with
          | .ok ri => { r2 with relatedImports := ri }
          | .error _ => r2
        else r2
      let gimp := analyzeImportsGeneric beforeCode languageId
      let r4 :=
        if r3.relatedImports.isEmpty then { r3 with relatedImports := gimp }
        else r3
      some r4

/-- `performEnhancedAnalysis` as `getContext` invokes it: the analyzer comes
    from the cache (created and stored on a miss). -/
def performEnhancedAnalysisSt (cache : AnalyzerCache) (d : Document)
    (pos : Pos) (beforeCode beforeCursor afterCursor afterCode : Str) :
    Option EnhancedAnalysisResult × AnalyzerCache :=
  let kc := getLanguageAnalyzer cache d.languageId
  (performEnhancedAnalysis (implOfKind kc.1) d pos beforeCode beforeCursor
    afterCursor afterCode, kc.2)

/-! ### ContextAnalyzer.getContext -/

/-- `ContextAnalyzer.getIndentation(lineText)`. -/
def getIndentation (lineText : Str) : Str := lineText.takeWhile isSpaceChar

/-- `document.fileName.split(/[/\\]/).pop() || ''`. -/
def fileNameOf (d : Document) : Str :=
  ((splitByPred (fun c => c == '/' || c == bslash) d.fileName).getLast?).getD []

/-- The `ContextInfo` record `getContext` returns. -/
structure ContextInfo where
  beforeCode : Str
  beforeCursor : Str
  afterCursor : Str
  afterCode : Str
  indentation : Str
  expectedIndentation : Str
  languageId : Str
  fileName : Str
  cursorLine : Nat
  cursorChar : Nat
  symbolInfo : List Str
  codeStructure : List CodeStructureInfo
  currentScope : Str
  relatedImports : List Str
  syntaxContext : Str
deriving DecidableEq, Repr

/-- The `+ '\n'`-joined segment `lines[lo..hi)` built by `getContext`'s
    accumulation loops. -/
def linesSegJoin (d : Document) (lo hi : Nat) : Str :=
  (List.range (hi - lo)).flatMap fun i => d.lineAt (lo + i) ++ ['\n']

/-- The shared return-record assembly of `getContext`'s three branches. -/
def assembleContext (d : Document) (pos : Pos) (cfg : EditorConfig)
    (beforeCode beforeCursor afterCursor afterCode : Str)
    (e : EnhancedAnalysisResult) : ContextInfo :=
  let indentation := getIndentation beforeCursor
  { beforeCode := beforeCode
    beforeCursor := beforeCursor
    afterCursor := afterCursor
    afterCode := afterCode
    indentation := indentation
    expectedIndentation :=
      analyzeExpectedIndentation d pos beforeCursor indentation cfg
    languageId := d.languageId
    fileName := fileNameOf d
    cursorLine := pos.line
    cursorChar := pos.char
    symbolInfo := e.relevantSymbols
    codeStructure := e.codeStructure
    currentScope := e.currentScope
    relatedImports := e.relatedImports
    syntaxContext := e.syntaxContext }

/-- `ContextAnalyzer.getContext(editor)`, with the workspace configuration
    and the analyzer cache made explicit.  `none` models the
    non-terminating runs (see `analyzeCurrentScopeEnhanced`); the returned
    cache reflects `getLanguageAnalyzer`'s store-on-miss. -/
def getContextSt (ed : Editor) (cfg : EditorConfig) (cache : AnalyzerCache) :
    Option ContextInfo × AnalyzerCache :=
  let d := ed.document
  let pos := ed.active
  let contextLineCount := cfg.contextLineCount
  let fullDocumentText := d.getText
  let totalLines := d.lineCount
  let functionOrClassRange := getCurrentFunctionOrClassRange d pos
  let currentLine := d.lineAt pos.line
  let beforeCursor := currentLine.take pos.char
  let afterCursor := currentLine.drop pos.char
  if fullDocumentText.length < 40000 then
    let fullBeforeCode := d.rangeText ⟨0, 0⟩ pos
    let fullAfterCode :=
      d.rangeText pos ⟨totalLines - 1, (d.lineAt (totalLines - 1)).length⟩
    let ec := performEnhancedAnalysisSt cache d pos fullBeforeCode
      beforeCursor afterCursor fullAfterCode
    (ec.1.map fun e => assembleContext d pos cfg fullBeforeCode beforeCursor
      afterCursor fullAfterCode e, ec.2)
  else
    let beforeCodeLength := (d.rangeText ⟨0, 0⟩ pos).length
    if beforeCodeLength < 4000 then
      let fullBeforeCode := d.rangeText ⟨0, 0⟩ pos
      let afterCode :=
        match functionOrClassRange with
        | some r =>
            if pos.line ≤ r.stop.line then d.rangeText pos r.stop
            else
              let endLine := min (d.lineCount - 1) (pos.line + contextLineCount)
              d.rangeText pos ⟨endLine, (d.lineAt endLine).length⟩
        | none =>
            let endLine := min (d.lineCount - 1) (pos.line + contextLineCount)
            d.rangeText pos ⟨endLine, (d.lineAt endLine).length⟩
      let ec := performEnhancedAnalysisSt cache d pos fullBeforeCode
        beforeCursor afterCursor afterCode
      (ec.1.map fun e => assembleContext d pos cfg fullBeforeCode beforeCursor
        afterCursor afterCode e, ec.2)
    else
      let valid :=
        match functionOrClassRange with
        | none => none
        | some r =>
            if d.lineCount ≤ r.stop.line then none
            else if pos.line < r.start.line || r.stop.line < pos.line then none
            else if r.stop.line - r.start.line < 2 then none
            else some r
      let usedFunctionContext := valid.isSome
      let se :=
        match valid with
        | some r => (r.start.line, r.stop.line)
        | none =>
            (pos.line - contextLineCount,
              min (d.lineCount - 1) (pos.line + contextLineCount))
      let beforeCode0 := linesSegJoin d se.1 pos.line
      let afterCode0 := linesSegJoin d (pos.line + 1) (se.2 + 1)
      let ba :=
        if usedFunctionContext &&
            ((trimL beforeCode0).isEmpty || (trimL afterCode0).isEmpty) then
          let e2 := min (d.lineCount - 1) (pos.line + contextLineCount)
          (linesSegJoin d (pos.line - contextLineCount) pos.line,
            linesSegJoin d (pos.line + 1) (e2 + 1))
        else (beforeCode0, afterCode0)
      let ec := performEnhancedAnalysisSt cache d pos ba.1 beforeCursor
        afterCursor ba.2
      (ec.1.map fun e => assembleContext d pos cfg ba.1 beforeCursor
        afterCursor ba.2 e, ec.2)

/-- An analyzer whose every method throws, to exercise the exception
    handling of `performEnhancedAnalysis`. -/
def throwImpl : AnalyzerImpl :=
  ⟨fun _ _ => .error (), fun _ _ => .error (), fun _ _ _ => .error (),
   fun _ _ _ _ => .error ()⟩

/-- A small Python document for the C9 counterexample. -/
def cexDocC9 : Document :=
  ⟨["import os".data, "if x:".data], "python".data, "b.py".data⟩

/-- A two-line TypeScript document for the C2 counterexample and witness. -/
def cexDocC2 : Document :=
  ⟨["ab".data, "cd".data], "typescript".data, "/x/a.ts".data⟩

end GCL

/-! ## Theorems -/

namespace GCL

/-- `splitSepGo` never returns an empty list of pieces. -/
theorem splitSepGo_ne_nil (sep : Str) :
    ∀ (fuel : Nat) (acc rest : Str), splitSepGo sep fuel acc rest ≠ [] := by
  intro fuel
  induction fuel with
  | zero => intro acc rest; simp [splitSepGo]
  | succ n ih =>
      intro acc rest
      unfold splitSepGo
      split
      · simp
      · cases rest with
        | nil => simp
        | cons c t => exact ih (acc ++ [c]) t

/-- A successful `isPrefixOf` splits the larger list. -/
theorem isPrefixOf_append_drop {l₁ l₂ : Str} (h : l₁.isPrefixOf l₂) :
    l₁ ++ l₂.drop l₁.length = l₂ := by
  have h' := ( List.isPrefixOf_iff_prefix).mp h
  have := List.prefix_iff_eq_take.mp h'
  conv_rhs => rw [← List.take_append_drop l₁.length l₂]
  rw [← this]

/-- `joinSep` over a cons with a non-empty tail. -/
theorem joinSep_cons (sep x : Str) (xs : List Str) (h : xs ≠ []) :
    joinSep sep (x :: xs) = x ++ sep ++ joinSep sep xs := by
  cases xs with
  | nil => exact absurd rfl h
  | cons y ys => rfl

/-- Joining the pieces of a split re-creates the input (with the accumulator
    prepended). -/
theorem joinSep_splitSepGo (sep : Str) :
    ∀ (fuel : Nat) (acc rest : Str),
      joinSep sep (splitSepGo sep fuel acc rest) = acc ++ rest := by
  intro fuel
  induction fuel with
  | zero => intro acc rest; simp [splitSepGo, joinSep]
  | succ n ih =>
      intro acc rest
      unfold splitSepGo
      split
      · rename_i h
        have hsep : sep.isPrefixOf rest := by
          simp only [Bool.and_eq_true] at h
          exact h.2
        rw [joinSep_cons sep acc _ (splitSepGo_ne_nil sep n [] (rest.drop sep.length)),
          ih [] (rest.drop sep.length)]
        simp only [List.nil_append, List.append_assoc]
        rw [isPrefixOf_append_drop hsep]
      · cases rest with
        | nil => simp [joinSep]
        | cons c t =>
            rw [ih (acc ++ [c]) t]
            simp

/-- The split of a prompt joins back to the prompt. -/
theorem joinSep_splitSep (sep s : Str) : joinSep sep (splitSep sep s) = s :=
  joinSep_splitSepGo sep (s.length + 1) [] s

/-- A prompt with no section separator parses into a critical text equal to
    the whole prompt (when the prompt is non-empty). -/
theorem criticalTextOf_single (p : Str) (hne : p ≠ [])
    (h : (splitSep "## ".data p).length < 2) : criticalTextOf p = p := by
  have hone : splitSep "## ".data p = [p] := by
    cases hsp : splitSep "## ".data p with
    | nil => exact absurd hsp (splitSepGo_ne_nil _ _ _ _)
    | cons x xs =>
        cases xs with
        | nil =>
            have hj : joinSep "## ".data [x] = p := by rw [← hsp, joinSep_splitSep]
            simp only [joinSep] at hj
            rw [hj]
        | cons y ys =>
            rw [hsp] at h
            simp only [List.length_cons] at h
            omega
  unfold criticalTextOf criticalPartsOf sectionsOf
  rw [hone]
  simp [parseSections, classifyUserParts, joinSep, hne]

/-- The greedy fill keeps the accumulated character count within 98% of the
    scaled budget whenever it selects at least one part. -/
theorem greedySelect_le (m : Nat) :
    ∀ (parts : List Str) (acc : Nat) (sel : List Str),
      greedySelect m parts acc = sel → sel ≠ [] →
        25 * (acc + (sel.map List.length).sum) ≤ 98 * m := by
  intro parts
  induction parts with
  | nil => intro acc sel hsel hne; rw [← hsel] at hne; simp [greedySelect] at hne
  | cons q rest ih =>
      intro acc sel hsel hne
      unfold greedySelect at hsel
      split at hsel
      · rename_i hcond
        cases hrec : greedySelect m rest (acc + q.length) with
        | nil =>
            rw [hrec] at hsel
            rw [← hsel]
            simpa using hcond
        | cons r rs =>
            have := ih (acc + q.length) (r :: rs) hrec (by simp)
            rw [hrec] at hsel
            rw [← hsel]
            simp only [List.map_cons, List.sum_cons] at this ⊢
            omega
      · rw [← hsel] at hne; exact absurd rfl hne

/-- C1 (amended).  For every prompt and budget, the truncation pass either
    (a) returns output within the estimated token budget (`length/4 ≤ max`,
    i.e. `length ≤ 4·max`); or (b) the critical set (system instructions,
    code context, user request, trailing instructions) alone exceeds the
    budget; or (c) the output is the critical text plus the fixed omission
    notice, whose characters are not counted against the budget; or (d) the
    output interleaves the critical parts with greedily selected enhanced
    sections, where the counted content (critical text plus the selected
    sections' own characters, excluding the inserted blank-line separators)
    stays within 98% of the budget.  In cases (c) and (d) the output itself
    may exceed the budget, which refutes the original claim. -/
theorem truncatePrompt_budget (p : Str) (m : Nat) :
    (truncatePrompt p m).length ≤ 4 * m
    ∨ 4 * m < (criticalTextOf p).length
    ∨ (truncatePrompt p m = criticalTextOf p ++ omissionNotice ∧
        (criticalTextOf p).length ≤ 4 * m)
    ∨ (truncatePrompt p m = enhancedAssemblyOf p m ∧
        25 * ((criticalTextOf p).length +
          ((selectedPartsOf p m).map List.length).sum) ≤ 98 * m) := by
  unfold truncatePrompt
  by_cases h1 : p.length ≤ 4 * m
  · rw [if_pos h1]; exact Or.inl h1
  · rw [if_neg h1]
    by_cases h2 : (splitSep "## ".data p).length < 2
    · rw [if_pos h2]
      have hpne : p ≠ [] := by
        intro hp
        rw [hp] at h1
        simp at h1
      rw [criticalTextOf_single p hpne h2]
      exact Or.inr (Or.inl (by omega))
    · rw [if_neg h2]
      simp only []
      by_cases h3 : 4 * m < (criticalTextOf p).length
      · exact Or.inr (Or.inl h3)
      · rw [if_neg h3]
        push_neg at h3
        by_cases h4 :
            (decide ((criticalTextOf p).length < 4 * m) &&
              !(sectionsOf p).enhancedContext.isEmpty) = true
        · rw [if_pos h4]
          cases hsel : selectedPartsOf p m with
          | nil => exact Or.inr (Or.inr (Or.inl ⟨rfl, h3⟩))
          | cons q qs =>
              have hbound :=
                greedySelect_le m (prioritizedPartsOf p) (criticalTextOf p).length
                  (q :: qs) hsel (by simp)
              cases qs with
              | nil =>
                  dsimp only
                  split
                  · exact Or.inr (Or.inr (Or.inl ⟨rfl, h3⟩))
                  · exact Or.inr (Or.inr (Or.inr ⟨rfl, hbound⟩))
              | cons r rs =>
                  exact Or.inr (Or.inr (Or.inr ⟨rfl, hbound⟩))
        · rw [if_neg h4]
          exact Or.inl h3

set_option maxRecDepth 10000 in
/-- C1 (counterexample).  A concrete prompt whose critical set fits the
    100-token budget (399 ≤ 400 characters) yet whose truncated output is 423
    characters long, exceeding the budget: the appended omission notice is not
    counted.  This refutes the claim as stated. -/
theorem truncatePrompt_budget_cex :
    (criticalTextOf cexPromptC1).length ≤ 4 * 100 ∧
      ¬ ((truncatePrompt cexPromptC1 100).length ≤ 4 * 100) := by
  constructor
  · decide
  · decide

/-- Members of the priority group carry the marker, hence rank 0. -/
theorem symRank_priority {info : List Str} {s : Str}
    (h : s ∈ prioritySymbolsOf info) : symRank s = 0 := by
  unfold prioritySymbolsOf at h
  rw [List.mem_filter] at h
  simp [symRank, h.2]

/-- Members of the function/call group have rank 1. -/
theorem symRank_function {info : List Str} {s : Str}
    (h : s ∈ functionSymbolsOf info) : symRank s = 1 := by
  unfold functionSymbolsOf normalSymbolsOf at h
  rw [List.mem_filter] at h
  obtain ⟨hn, hcond⟩ := h
  rw [List.mem_filter] at hn
  have hnostar : containsSub s "*".data = false := by
    simpa using hn.2
  simp [symRank, hnostar, hcond]

/-- A string starting with `class:` does not start with `function:`. -/
theorem not_function_of_class {s : Str} (h : sStarts s "class:".data = true) :
    sStarts s "function:".data = false := by
  cases s with
  | nil => simp [sStarts, List.isPrefixOf] at h
  | cons a t =>
      simp only [sStarts, List.isPrefixOf, String.data] at h ⊢
      simp only [Bool.and_eq_true, beq_iff_eq] at h
      simp [← h.1]

/-- Members of the class group have rank 2, provided no class-tagged symbol
    also carries a call marker. -/
theorem symRank_class {info : List Str} {s : Str}
    (hyp : ∀ t ∈ info,
      ¬(sStarts t "class:".data = true ∧ containsSub t "()".data = true))
    (h : s ∈ classSymbolsOf info) : symRank s = 2 := by
  unfold classSymbolsOf normalSymbolsOf at h
  rw [List.mem_filter] at h
  obtain ⟨hn, hcls⟩ := h
  rw [List.mem_filter] at hn
  have hnostar : containsSub s "*".data = false := by simpa using hn.2
  have hnocall : containsSub s "()".data = false := by
    have := hyp s hn.1
    rcases hc : containsSub s "()".data with _ | _
    · rfl
    · exact absurd ⟨hcls, hc⟩ this
  simp [symRank, hnostar, hcls, hnocall, not_function_of_class hcls]

/-- Members of the remainder group have rank 3. -/
theorem symRank_other {info : List Str} {s : Str}
    (h : s ∈ otherSymbolsOf info) : symRank s = 3 := by
  unfold otherSymbolsOf normalSymbolsOf at h
  rw [List.mem_filter] at h
  obtain ⟨hn, hcond⟩ := h
  rw [List.mem_filter] at hn
  have hnostar : containsSub s "*".data = false := by simpa using hn.2
  simp only [Bool.and_eq_true, Bool.not_eq_true'] at hcond
  simp [symRank, hnostar, hcond.1.1, hcond.1.2, hcond.2]

/-- C10.  The rendered nearby-symbols section lists at most 20 entries, taken
    as the first 20 of: priority-marked symbols, then function-tagged and call
    symbols, then class-tagged symbols, then the remaining symbols (each group
    in original order); all listed entries come from `symbolInfo`, and the
    listing is non-decreasing in category rank whenever no symbol is
    simultaneously class-tagged and call-marked (such a symbol is listed in
    both groups). -/
theorem buildSymbolsInfo_spec (info : List Str) :
    (orderedSymbolsOf info).length ≤ 20 ∧
    (info ≠ [] → buildSymbolsInfo info =
      symbolsHeader ++ joinSep ", ".data (orderedSymbolsOf info)) ∧
    (∀ s ∈ orderedSymbolsOf info, s ∈ info) ∧
    ((∀ s ∈ info,
        ¬(sStarts s "class:".data = true ∧ containsSub s "()".data = true)) →
      List.Pairwise (fun a b => symRank a ≤ symRank b) (orderedSymbolsOf info)) := by
  refine ⟨?_, ?_, ?_, ?_⟩
  · unfold orderedSymbolsOf
    simp
  · intro hne
    unfold buildSymbolsInfo
    rw [if_neg (by simpa using hne)]
  · intro s hs
    have hmem := List.mem_of_mem_take hs
    simp only [List.mem_append] at hmem
    unfold prioritySymbolsOf functionSymbolsOf classSymbolsOf otherSymbolsOf
      normalSymbolsOf at hmem
    rcases hmem with ((h | h) | h) | h <;>
      first
        | exact (List.mem_filter.mp h).1
        | exact (List.mem_filter.mp (List.mem_filter.mp h).1).1
  · intro hyp
    apply List.Pairwise.sublist (List.take_sublist 20 _)
    have rankOf : ∀ s, (s ∈ prioritySymbolsOf info → symRank s = 0) ∧
        (s ∈ functionSymbolsOf info → symRank s = 1) ∧
        (s ∈ classSymbolsOf info → symRank s = 2) ∧
        (s ∈ otherSymbolsOf info → symRank s = 3) :=
      fun s => ⟨symRank_priority, symRank_function, symRank_class hyp, symRank_other⟩
    have hconst : ∀ (l : List Str) (k : Nat), (∀ s ∈ l, symRank s = k) →
        List.Pairwise (fun a b => symRank a ≤ symRank b) l := by
      intro l k h
      induction l with
      | nil => exact List.Pairwise.nil
      | cons x t ih =>
          refine List.Pairwise.cons ?_ (ih fun s hs => h s (List.mem_cons_of_mem _ hs))
          intro b hb
          rw [h x (List.mem_cons_self _ _), h b (List.mem_cons_of_mem _ hb)]
    have rankLow : ∀ a, a ∈ prioritySymbolsOf info ++ functionSymbolsOf info ++
        classSymbolsOf info → symRank a ≤ 2 := by
      intro a ha
      rcases List.mem_append.mp ha with h | h
      · rcases List.mem_append.mp h with h' | h'
        · rw [(rankOf a).1 h']; omega
        · rw [(rankOf a).2.1 h']; omega
      · rw [(rankOf a).2.2.1 h]
    rw [List.pairwise_append]
    refine ⟨?_, hconst _ 3 (fun s hs => (rankOf s).2.2.2 hs), ?_⟩
    · rw [List.pairwise_append]
      refine ⟨?_, hconst _ 2 (fun s hs => (rankOf s).2.2.1 hs), ?_⟩
      · rw [List.pairwise_append]
        refine ⟨hconst _ 0 (fun s hs => (rankOf s).1 hs),
          hconst _ 1 (fun s hs => (rankOf s).2.1 hs), ?_⟩
        intro a ha b hb
        rw [(rankOf a).1 ha, (rankOf b).2.1 hb]
        omega
      · intro a ha b hb
        rw [(rankOf b).2.2.1 hb]
        rcases List.mem_append.mp ha with h | h
        · rw [(rankOf a).1 h]; omega
        · rw [(rankOf a).2.1 h]; omega
    · intro a ha b hb
      rw [(rankOf b).2.2.2 hb]
      have := rankLow a ha
      omega

/-- C10 (witness).  The characterisation applied to a concrete symbol list
    exercising all four categories. -/
theorem buildSymbolsInfo_spec_witness :
    (orderedSymbolsOf demoSymbols).length ≤ 20 ∧
      buildSymbolsInfo demoSymbols =
        symbolsHeader ++ joinSep ", ".data (orderedSymbolsOf demoSymbols) ∧
      List.Pairwise (fun a b => symRank a ≤ symRank b)
        (orderedSymbolsOf demoSymbols) := by
  have h := buildSymbolsInfo_spec demoSymbols
  exact ⟨h.1, h.2.1 (by decide), h.2.2.2 (by decide)⟩

set_option maxRecDepth 10000 in
/-- Every character of a keyword is a word character (true of all four
    keyword tables). -/
theorem isKeyword_all_word {s lang : Str} (h : isKeyword s lang = true) :
    ∀ c ∈ s, isWordChar c = true := by
  have hall : ∀ k ∈ pythonKeywords ++ jsKeywords ++ javaKeywords ++ genericKeywords,
      ∀ c ∈ k, isWordChar c = true := by decide
  unfold isKeyword at h
  simp only at h
  intro c hc
  split at h
  · exact hall s (by simp [List.mem_append, List.elem_iff.mp h]) c hc
  · split at h
    · exact hall s (by simp [List.mem_append, List.elem_iff.mp h]) c hc
    · split at h
      · exact hall s (by simp [List.mem_append, List.elem_iff.mp h]) c hc
      · exact hall s (by simp [List.mem_append, List.elem_iff.mp h]) c hc

/-- A string containing a non-word character is not a keyword. -/
theorem not_keyword_of_special {s lang : Str} {c : Char} (hc : c ∈ s)
    (hw : isWordChar c = false) : isKeyword s lang = false := by
  rcases h : isKeyword s lang with _ | _
  · rfl
  · exact absurd (isKeyword_all_word h c hc) (by simp [hw])

/-- A star-suffixed symbol is never a keyword. -/
theorem star_suffix_not_keyword (s lang : Str) :
    isKeyword (s ++ ['*']) lang = false :=
  not_keyword_of_special (c := '*') (List.mem_append_right s (by decide)) (by decide)

/-- Membership after a `setAdd`. -/
theorem setAdd_mem {st : List Str} {x s : Str} (h : s ∈ setAdd st x) :
    s ∈ st ∨ s = x := by
  unfold setAdd at h
  split at h
  · exact Or.inl h
  · rcases List.mem_append.mp h with h | h
    · exact Or.inl h
    · exact Or.inr (List.mem_singleton.mp h)

/-- Invariant preservation through a left fold. -/
theorem foldl_preserve {β : Type} (P : Str → Prop) (f : List Str → β → List Str)
    (hf : ∀ st b, (∀ s ∈ st, P s) → ∀ s ∈ f st b, P s) :
    ∀ (l : List β) (st : List Str), (∀ s ∈ st, P s) → ∀ s ∈ l.foldl f st, P s := by
  intro l
  induction l with
  | nil => intro st h; simpa using h
  | cons b t ih => intro st h; exact ih (f st b) (hf st b h)

/-- The guarded-add step shape shared by the extraction loops: when the set is
    keyword-free and the added symbol is keyword-free, so is the result. -/
theorem setAdd_keyword_free {lang : Str} {st : List Str} {x : Str}
    (h : ∀ s ∈ st, isKeyword s lang = false) (hx : isKeyword x lang = false) :
    ∀ s ∈ setAdd st x, isKeyword s lang = false := by
  intro s hs
  rcases setAdd_mem hs with h' | h'
  · exact h s h'
  · rw [h']; exact hx

/-- A marked symbol whose raw form passes the keyword check is keyword-free. -/
theorem symMark_keyword_free {lang x : Str} {prio : Bool}
    (hx : isKeyword x lang = false) :
    isKeyword (symMark prio x) lang = false := by
  unfold symMark
  cases prio with
  | false => simpa using hx
  | true => simpa using star_suffix_not_keyword x lang

/-- The `symbolRegex` loop preserves keyword-freedom. -/
theorem addPlainSymbols_kf (lang line : Str) (prio : Bool) (st : List Str)
    (h : ∀ s ∈ st, isKeyword s lang = false) :
    ∀ s ∈ addPlainSymbols lang prio line st, isKeyword s lang = false := by
  unfold addPlainSymbols
  apply foldl_preserve _ _ ?_ _ _ h
  intro st' m hst' s hs
  dsimp only at hs
  by_cases hg : (!isKeyword (matchedText line m) lang) = true
  · rw [if_pos hg] at hs
    have := Bool.not_eq_true' .. ▸ hg
    exact setAdd_keyword_free hst' (symMark_keyword_free (by simpa using hg)) s hs
  · rw [if_neg hg] at hs; exact hst' s hs

/-- The `methodCallRegex` loop preserves keyword-freedom. -/
theorem addMethodCalls_kf (lang line : Str) (prio : Bool) (st : List Str)
    (h : ∀ s ∈ st, isKeyword s lang = false) :
    ∀ s ∈ addMethodCalls lang prio line st, isKeyword s lang = false := by
  unfold addMethodCalls
  apply foldl_preserve _ _ ?_ _ _ h
  intro st' m hst' s hs
  dsimp only at hs
  by_cases hg : (!isKeyword (capGetD m.caps 1) lang) = true
  · rw [if_pos hg] at hs
    have hx : ∀ tail : Str, '(' ∈ tail →
        isKeyword (capGetD m.caps 1 ++ tail) lang = false := fun tail ht =>
      not_keyword_of_special (List.mem_append_right _ ht) (by decide)
    cases prio with
    | true => exact setAdd_keyword_free hst' (hx "*()".data (by decide)) s (by simpa using hs)
    | false => exact setAdd_keyword_free hst' (hx "()".data (by decide)) s (by simpa using hs)
  · rw [if_neg hg] at hs; exact hst' s hs

/-- The `propertyAccessRegex` loop preserves keyword-freedom. -/
theorem addPropertyAccess_kf (lang line : Str) (prio : Bool) (st : List Str)
    (h : ∀ s ∈ st, isKeyword s lang = false) :
    ∀ s ∈ addPropertyAccess lang prio line st, isKeyword s lang = false := by
  unfold addPropertyAccess
  apply foldl_preserve _ _ ?_ _ _ h
  intro st' m hst' s hs
  dsimp only at hs
  by_cases hg : (!isKeyword (capGetD m.caps 1) lang &&
      !isKeyword (capGetD m.caps 2) lang) = true
  · rw [if_pos hg] at hs
    simp only [Bool.and_eq_true, Bool.not_eq_true'] at hg
    have hobj : isKeyword (symMark prio (capGetD m.caps 1)) lang = false :=
      symMark_keyword_free hg.1
    have hpath : isKeyword (symMark prio (capGetD m.caps 1 ++ '.' ::
        capGetD m.caps 2)) lang = false := by
      unfold symMark
      cases prio with
      | true => exact star_suffix_not_keyword _ _
      | false =>
          simp only [Bool.false_eq_true, if_false]
          exact not_keyword_of_special (c := '.')
            (List.mem_append_right _ (by simp)) (by decide)
    exact setAdd_keyword_free (setAdd_keyword_free hst' hobj) hpath s hs
  · rw [if_neg hg] at hs; exact hst' s hs

/-- The `functionDefRegex` loop preserves keyword-freedom. -/
theorem addFunctionDefs_kf (lang line : Str) (st : List Str)
    (h : ∀ s ∈ st, isKeyword s lang = false) :
    ∀ s ∈ addFunctionDefs lang line st, isKeyword s lang = false := by
  unfold addFunctionDefs
  cases functionDefRxFor lang with
  | none => exact h
  | some r =>
      apply foldl_preserve _ _ ?_ _ _ h
      intro st' m hst' s hs
      dsimp only at hs
      rcases hfc : firstCap m.caps with _ | name
      · rw [hfc] at hs; exact hst' s hs
      · rw [hfc] at hs
        dsimp only at hs
        by_cases hg : (!name.isEmpty && !isKeyword name lang) = true
        · rw [if_pos hg] at hs
          refine setAdd_keyword_free hst'
            (not_keyword_of_special (c := ':') ?_ (by decide)) s hs
          exact List.mem_append_left _ (by decide)
        · rw [if_neg hg] at hs; exact hst' s hs

/-- The `classDefRegex` loop preserves keyword-freedom. -/
theorem addClassDefs_kf (lang line : Str) (st : List Str)
    (h : ∀ s ∈ st, isKeyword s lang = false) :
    ∀ s ∈ addClassDefs lang line st, isKeyword s lang = false := by
  unfold addClassDefs
  cases classDefRxFor lang with
  | none => exact h
  | some r =>
      apply foldl_preserve _ _ ?_ _ _ h
      intro st' m hst' s hs
      dsimp only at hs
      by_cases hg : (!(capGetD m.caps 1).isEmpty &&
          !isKeyword (capGetD m.caps 1) lang) = true
      · rw [if_pos hg] at hs
        refine setAdd_keyword_free hst'
          (not_keyword_of_special (c := ':') ?_ (by decide)) s hs
        exact List.mem_append_left _ (by decide)
      · rw [if_neg hg] at hs; exact hst' s hs

/-- The parameter-pattern loop preserves keyword-freedom. -/
theorem addParams_kf (lang line : Str) (prio : Bool) (st : List Str)
    (h : ∀ s ∈ st, isKeyword s lang = false) :
    ∀ s ∈ addParams lang prio line st, isKeyword s lang = false := by
  unfold addParams
  apply foldl_preserve _ _ ?_ _ _ h
  intro st' r hst' s hs
  dsimp only at hs
  rcases hm : rxFirst r line with _ | m
  · rw [hm] at hs; exact hst' s hs
  · rw [hm] at hs
    try dsimp only at hs
    rcases hc : capGet m.caps 1 with _ | pstr
    · rw [hc] at hs; exact hst' s hs
    · rw [hc] at hs
      try dsimp only at hs
      by_cases he : pstr.isEmpty
      · rw [if_pos he] at hs; exact hst' s hs
      · rw [if_neg he] at hs
        revert s hs
        apply foldl_preserve _ _ ?_ _ _ hst'
        intro st'' param hst'' s hs
        try dsimp only at hs
        by_cases hg : (!(paramNameOf param).isEmpty &&
            !isKeyword (paramNameOf param) lang) = true
        · rw [if_pos hg] at hs
          simp only [Bool.and_eq_true, Bool.not_eq_true'] at hg
          exact setAdd_keyword_free hst'' (symMark_keyword_free hg.2) s hs
        · rw [if_neg hg] at hs; exact hst'' s hs

/-- `extractSymbolsFromLine` preserves keyword-freedom. -/
theorem extractSymbolsFromLine_kf (line lang : Str) (prio : Bool) (st : List Str)
    (h : ∀ s ∈ st, isKeyword s lang = false) :
    ∀ s ∈ extractSymbolsFromLine line lang st prio, isKeyword s lang = false := by
  unfold extractSymbolsFromLine
  exact addParams_kf _ _ _ _
    (addClassDefs_kf _ _ _
      (addFunctionDefs_kf _ _ _
        (addPropertyAccess_kf _ _ _ _
          (addMethodCalls_kf _ _ _ _
            (addPlainSymbols_kf _ _ _ _ h)))))

/-- `extractSymbolsFromText` preserves keyword-freedom. -/
theorem extractSymbolsFromText_kf (text lang : Str) (prio : Bool) (st : List Str)
    (h : ∀ s ∈ st, isKeyword s lang = false) :
    ∀ s ∈ extractSymbolsFromText text lang st prio, isKeyword s lang = false := by
  have hlines := foldl_preserve (fun s => isKeyword s lang = false)
    (fun st line => extractSymbolsFromLine line lang st prio)
    (fun st' line hst' => extractSymbolsFromLine_kf line lang prio st' hst')
    (splitChar '\n' text) st h
  have hstep : ∀ (st' : List Str) (pr : Rx × Str),
      (∀ s ∈ st', isKeyword s lang = false) →
      ∀ s ∈ (if rxTest pr.1 text then
          setAdd (setAdd st' (pr.2 ++ ['*'])) (pr.2 ++ "*()".data) else st'),
        isKeyword s lang = false := by
    intro st' pr hst' s hs
    by_cases hg : rxTest pr.1 text = true
    · rw [if_pos hg] at hs
      refine setAdd_keyword_free (setAdd_keyword_free hst'
        (star_suffix_not_keyword _ _)) ?_ s hs
      exact not_keyword_of_special (c := '*')
        (List.mem_append_right _ (by decide)) (by decide)
    · rw [if_neg hg] at hs; exact hst' s hs
  have hapi := foldl_preserve (fun s => isKeyword s lang = false)
    (fun st (pr : Rx × Str) =>
      if rxTest pr.1 text then setAdd (setAdd st (pr.2 ++ ['*'])) (pr.2 ++ "*()".data)
      else st)
    hstep apiPatterns _ hlines
  unfold extractSymbolsFromText
  dsimp only
  rcases hm : rxFirst provideParamsRx text with _ | m
  · exact hapi
  · try dsimp only
    rcases hc : capGet m.caps 1 with _ | pstr
    · exact hapi
    · try dsimp only
      by_cases he : pstr.isEmpty = true
      · rw [if_pos he]; exact hapi
      · rw [if_neg he]
        apply foldl_preserve _ _ ?_ _ _ hapi
        intro st'' param hst'' s hs
        try dsimp only at hs
        by_cases hg : (!(trimL (param.takeWhile fun c => c != ':')).isEmpty &&
            !isKeyword (trimL (param.takeWhile fun c => c != ':')) lang) = true
        · rw [if_pos hg] at hs
          exact setAdd_keyword_free hst'' (star_suffix_not_keyword _ _) s hs
        · rw [if_neg hg] at hs; exact hst'' s hs

set_option maxRecDepth 10000 in
/-- C7 (amended).  No element of the extracted symbol set is literally a
    member of the active language's keyword set (each add is either guarded by
    the keyword check or carries a marker character no keyword contains); and
    scenario C holds: for `const a = obj.prop;` the symbols contain `obj` and
    `obj.prop` but not `const`.  The original claim's stronger marker-stripped
    form is refuted separately. -/
theorem extractSymbols_no_raw_keyword :
    (∀ (text lang : Str) (prio : Bool),
      ∀ s ∈ extractSymbolsFromText text lang [] prio, isKeyword s lang = false)
    ∧ "obj".data ∈ extractSymbolsFromText scenarioCText "typescript".data [] false
    ∧ "obj.prop".data ∈ extractSymbolsFromText scenarioCText "typescript".data [] false
    ∧ "const".data ∉ extractSymbolsFromText scenarioCText "typescript".data [] false := by
  refine ⟨?_, by decide, by decide, by decide⟩
  intro text lang prio
  exact extractSymbolsFromText_kf text lang prio [] (by simp)

/-- Elements of a stable insertion are the inserted element or old ones. -/
theorem insSorted_mem {α : Type} {lt : α → α → Bool} {x z : α} :
    ∀ {l : List α}, z ∈ insSorted lt x l → z = x ∨ z ∈ l := by
  intro l
  induction l with
  | nil => intro h; simpa [insSorted] using h
  | cons y ys ih =>
      intro h
      unfold insSorted at h
      split at h
      · rcases List.mem_cons.mp h with h' | h'
        · exact Or.inr (List.mem_cons.mpr (Or.inl h'))
        · rcases ih h' with h'' | h''
          · exact Or.inl h''
          · exact Or.inr (List.mem_cons.mpr (Or.inr h''))
      · rcases List.mem_cons.mp h with h' | h'
        · exact Or.inl h'
        · exact Or.inr h'

/-- Stable insertion preserves sortedness by a numeric key. -/
theorem insSorted_pairwise {α : Type} (key : α → Nat) (x : α) :
    ∀ {l : List α},
      List.Pairwise (fun a b => key a ≤ key b) l →
      List.Pairwise (fun a b => key a ≤ key b)
        (insSorted (fun a b => key a < key b) x l) := by
  intro l
  induction l with
  | nil => intro _; simp [insSorted]
  | cons y ys ih =>
      intro h
      rcases List.pairwise_cons.mp h with ⟨hy, hys⟩
      unfold insSorted
      split
      · rename_i hlt
        refine List.pairwise_cons.mpr ⟨?_, ih hys⟩
        intro z hz
        rcases insSorted_mem hz with h' | h'
        · rw [h']
          exact Nat.le_of_lt (by simpa using hlt)
        · exact hy z h'
      · rename_i hnlt
        refine List.pairwise_cons.mpr ⟨?_, h⟩
        intro z hz
        rcases List.mem_cons.mp hz with h' | h'
        · rw [h']
          simpa using hnlt
        · exact Nat.le_trans (by simpa using hnlt) (hy z h')

/-- The stable ascending sort produces a list non-decreasing in the key. -/
theorem stableSortBy_sorted {α : Type} (key : α → Nat) (l : List α) :
    List.Pairwise (fun a b => key a ≤ key b)
      (stableSortBy (fun a b => key a < key b) l) := by
  induction l with
  | nil => simp [stableSortBy]
  | cons x xs ih => exact insSorted_pairwise key x ih

/-- C8.  The structure records returned by the structural pattern matchers —
    the JS/TS structure analysis, the TypeScript analyzer's structure
    analysis, and the generic control-structure matcher — are sorted in
    non-decreasing order of source position. -/
theorem structures_sorted_by_position :
    (∀ beforeCode afterCode : Str,
      List.Pairwise (fun a b => a.position ≤ b.position)
        (analyzeJSCodeStructure beforeCode afterCode))
    ∧ (∀ d : Document,
      List.Pairwise (fun a b => a.position ≤ b.position)
        (tsAnalyzeCodeStructure d))
    ∧ (∀ code lang : Str,
      List.Pairwise (fun a b => a.position ≤ b.position)
        (analyzeControlStructures code lang)) :=
  ⟨fun _ _ => stableSortBy_sorted CodeStructureInfo.position _,
   fun _ => stableSortBy_sorted CodeStructureInfo.position _,
   fun _ _ => stableSortBy_sorted CodeStructureInfo.position _⟩

/-- Invariant preservation through a left fold, with membership of the folded
    element available to the step. -/
theorem foldl_preserve_mem {β : Type} (P : Str → Prop) (f : List Str → β → List Str) :
    ∀ (l : List β), (∀ st b, b ∈ l → (∀ s ∈ st, P s) → ∀ s ∈ f st b, P s) →
      ∀ st, (∀ s ∈ st, P s) → ∀ s ∈ l.foldl f st, P s := by
  intro l
  induction l with
  | nil => intro _ st h; simpa using h
  | cons b t ih =>
      intro hf st h
      exact ih (fun st' b' hb' => hf st' b' (List.mem_cons_of_mem _ hb'))
        (f st b) (hf st b (List.mem_cons_self _ _) h)

/-- C3 (amended).  Every string the TypeScript import analyzer places in
    `relatedImports` is a rebuilt import of one of three shapes, each tied to
    the symbol list: a named import whose braced entry matches a
    marker-stripped symbol (for aliased entries the comparison is against the
    whitespace-stripped entry text), a namespace import whose namespace is a
    dot-prefix of a marker-stripped symbol (the namespace itself need not be a
    symbol), or a default import whose bound name equals a marker-stripped
    symbol. -/
theorem tsAnalyzeRelatedImports_bound (d : Document) (symbols : List Str) :
    ∀ imp ∈ tsAnalyzeRelatedImports d symbols,
      (∃ entry moduleName, imp = mkNamedImport entry moduleName ∧
        ∃ s ∈ symbols, entryMatches (stripMarkers s) entry = true) ∨
      (∃ ns moduleName, imp = mkNamespaceImport ns moduleName ∧
        ∃ s ∈ symbols, sStarts (stripMarkers s) (ns ++ ['.']) = true) ∨
      (∃ dflt moduleName, imp = mkDefaultImport dflt moduleName ∧
        ∃ s ∈ symbols, stripMarkers s = dflt) := by
  unfold tsAnalyzeRelatedImports
  apply foldl_preserve
    (fun imp =>
      (∃ entry moduleName, imp = mkNamedImport entry moduleName ∧
        ∃ s ∈ symbols, entryMatches (stripMarkers s) entry = true) ∨
      (∃ ns moduleName, imp = mkNamespaceImport ns moduleName ∧
        ∃ s ∈ symbols, sStarts (stripMarkers s) (ns ++ ['.']) = true) ∨
      (∃ dflt moduleName, imp = mkDefaultImport dflt moduleName ∧
        ∃ s ∈ symbols, stripMarkers s = dflt))
    _ ?_ _ _ (by simp)
  intro st m hst s hs
  try dsimp only at hs
  by_cases hbr : containsSub
      (((capGet m.caps 1).orElse fun _ =>
        (capGet m.caps 2).orElse fun _ => capGet m.caps 3).getD []) [lbr] = true
  · rw [if_pos hbr] at hs
    revert s hs
    apply foldl_preserve_mem
      (fun imp =>
        (∃ entry moduleName, imp = mkNamedImport entry moduleName ∧
          ∃ s ∈ symbols, entryMatches (stripMarkers s) entry = true) ∨
        (∃ ns moduleName, imp = mkNamespaceImport ns moduleName ∧
          ∃ s ∈ symbols, sStarts (stripMarkers s) (ns ++ ['.']) = true) ∨
        (∃ dflt moduleName, imp = mkDefaultImport dflt moduleName ∧
          ∃ s ∈ symbols, stripMarkers s = dflt))
      _ symbols ?_ st hst
    intro st' sym hsym hst' s hs
    try dsimp only at hs
    rcases hf : (splitChar ','
        (stripBracesSpace
          (((capGet m.caps 1).orElse fun _ =>
            (capGet m.caps 2).orElse fun _ => capGet m.caps 3).getD []))).find?
        (fun n => entryMatches (stripMarkers sym) n) with _ | n
    · rw [hf] at hs; exact hst' s hs
    · rw [hf] at hs
      rcases List.mem_append.mp hs with h | h
      · exact hst' s h
      · have hm := List.mem_singleton.mp h
        have hcond := List.find?_some hf
        exact Or.inl ⟨n, _, hm, sym, hsym, hcond⟩
  · rw [if_neg hbr] at hs
    rcases h2 : capGet m.caps 2 with _ | ns
    · rw [h2] at hs
      try dsimp only at hs
      rcases h3 : capGet m.caps 3 with _ | dflt
      · rw [h3] at hs; exact hst s hs
      · rw [h3] at hs
        try dsimp only at hs
        by_cases hany : symbols.any (fun s => stripMarkers s == dflt) = true
        · rw [if_pos hany] at hs
          rcases List.mem_append.mp hs with h | h
          · exact hst s h
          · have hm := List.mem_singleton.mp h
            obtain ⟨sym, hsym, hcond⟩ := List.any_eq_true.mp hany
            exact Or.inr (Or.inr ⟨dflt, _, hm, sym, hsym, by simpa using hcond⟩)
        · rw [if_neg hany] at hs; exact hst s hs
    · rw [h2] at hs
      try dsimp only at hs
      by_cases hany : symbols.any
          (fun s => sStarts (stripMarkers s) (ns ++ ['.'])) = true
      · rw [if_pos hany] at hs
        rcases List.mem_append.mp hs with h | h
        · exact hst s h
        · have hm := List.mem_singleton.mp h
          obtain ⟨sym, hsym, hcond⟩ := List.any_eq_true.mp hany
          exact Or.inr (Or.inl ⟨ns, _, hm, sym, hsym, hcond⟩)
      · rw [if_neg hany] at hs; exact hst s hs

set_option maxRecDepth 10000 in
/-- C3 (witness).  The amended characterisation applied to the concrete
    namespace-import document and symbol list. -/
theorem tsAnalyzeRelatedImports_bound_witness :
    (∃ entry moduleName,
        mkNamespaceImport "ns".data "m".data = mkNamedImport entry moduleName ∧
        ∃ s ∈ ["ns.prop".data], entryMatches (stripMarkers s) entry = true) ∨
    (∃ ns moduleName,
        mkNamespaceImport "ns".data "m".data = mkNamespaceImport ns moduleName ∧
        ∃ s ∈ ["ns.prop".data], sStarts (stripMarkers s) (ns ++ ['.']) = true) ∨
    (∃ dflt moduleName,
        mkNamespaceImport "ns".data "m".data = mkDefaultImport dflt moduleName ∧
        ∃ s ∈ ["ns.prop".data], stripMarkers s = dflt) :=
  tsAnalyzeRelatedImports_bound cexDocC3 ["ns.prop".data]
    (mkNamespaceImport "ns".data "m".data) (by decide)

/-- The configured indent unit is never empty (`tabSize` falls back to 4 when
    unset, since `0` is falsy in `cfg.get('tabSize') || 4`). -/
theorem indentUnitOf_ne_nil (cfg : EditorConfig) : indentUnitOf cfg ≠ [] := by
  unfold indentUnitOf EditorConfig.tabSize
  split
  · rcases h : (cfg.tabSizeRaw == 0) with _ | _ <;> simp [h]
    intro hcontra
    exact absurd hcontra (by simpa using h)
  · simp

/-- C4 (amended).  The expected indentation equals the current indentation
    plus one indent unit (tab, or tabSize spaces) exactly when the
    immediately previous line (when one exists, trimmed) ends with a
    block-opening token, or `beforeCursor` contains an open bracket and no
    close bracket; otherwise it equals the current indentation.  In
    particular, scenario B holds: with the cursor on the line after
    `if (x > 0) {`, the expected indentation is one unit deeper. -/
theorem analyzeExpectedIndentation_spec :
    (∀ (d : Document) (pos : Pos) (bc ind : Str) (cfg : EditorConfig),
      analyzeExpectedIndentation d pos bc ind cfg = ind ++ indentUnitOf cfg ↔
        ((1 ≤ pos.line ∧ (blockStarters.any fun r =>
            rxTestEnd r (trimL (d.lineAt (pos.line - 1)))) = true) ∨
         (hasOpenBracketChar bc = true ∧ hasCloseBracketChar bc = false)))
    ∧ analyzeExpectedIndentation scenarioBDoc ⟨1, 0⟩ [] [] defaultCfg =
        [] ++ indentUnitOf defaultCfg := by
  constructor
  · intro d pos bc ind cfg
    have hne : ind ++ indentUnitOf cfg ≠ ind := by
      intro hcontra
      have := congrArg List.length hcontra
      simp only [List.length_append] at this
      have : (indentUnitOf cfg).length = 0 := by omega
      exact indentUnitOf_ne_nil cfg (List.length_eq_zero.mp this)
    unfold analyzeExpectedIndentation
    dsimp only
    by_cases h1 : 1 ≤ pos.line
    · rw [if_pos h1]
      by_cases h2 : (blockStarters.any fun r =>
          rxTestEnd r (trimL (d.lineAt (pos.line - 1)))) = true
      · rw [if_pos h2]
        simp [h1, h2]
      · rw [if_neg h2]
        by_cases h3 : (hasOpenBracketChar bc && !hasCloseBracketChar bc) = true
        · rw [if_pos h3]
          simp only [Bool.and_eq_true, Bool.not_eq_true'] at h3
          simp [h3]
        · rw [if_neg h3]
          simp only [Bool.and_eq_true, Bool.not_eq_true'] at h3
          constructor
          · intro hcontra
            exact absurd hcontra.symm hne
          · intro hcond
            rcases hcond with ⟨_, hc⟩ | hc
            · exact absurd hc h2
            · exact absurd hc h3
    · rw [if_neg h1]
      by_cases h3 : (hasOpenBracketChar bc && !hasCloseBracketChar bc) = true
      · rw [if_pos h3]
        simp only [Bool.and_eq_true, Bool.not_eq_true'] at h3
        simp [h3]
      · rw [if_neg h3]
        simp only [Bool.and_eq_true, Bool.not_eq_true'] at h3
        constructor
        · intro hcontra
          exact absurd hcontra.symm hne
        · intro hcond
          rcases hcond with ⟨hl, _⟩ | hc
          · exact absurd hl h1
          · exact absurd hc h3
  · decide

/-- C4 (counterexample).  With `if (x) {` two lines above the cursor and a
    blank line in between, the claim's condition (previous *non-empty* line
    ends with a block opener) holds, yet the source looks only at the
    immediately previous (blank) line and returns the unchanged indentation —
    refuting the claim's characterisation. -/
theorem analyzeExpectedIndentation_cex :
    claimBlockOpenerCond cexDocC4 ⟨2, 0⟩ [] = true ∧
      analyzeExpectedIndentation cexDocC4 ⟨2, 0⟩ [] [] defaultCfg ≠
        [] ++ indentUnitOf defaultCfg := by
  exact ⟨by decide, by decide⟩

/-- Invariant preservation through a left fold, over any element type. -/
theorem foldl_preserve_any {α β : Type} (P : α → Prop) (f : List α → β → List α)
    (hf : ∀ st b, (∀ s ∈ st, P s) → ∀ s ∈ f st b, P s) :
    ∀ (l : List β) (st : List α), (∀ s ∈ st, P s) → ∀ s ∈ l.foldl f st, P s := by
  intro l
  induction l with
  | nil => intro st h; simpa using h
  | cons b t ih => intro st h; exact ih (f st b) (hf st b h)

/-- Elements of the stable sort come from the input list. -/
theorem stableSortBy_mem {α : Type} {lt : α → α → Bool} {z : α} :
    ∀ {l : List α}, z ∈ stableSortBy lt l → z ∈ l := by
  intro l
  induction l with
  | nil => intro h; simp [stableSortBy] at h
  | cons x xs ih =>
      intro h
      rcases insSorted_mem h with h' | h'
      · rw [h']; exact List.mem_cons_self _ _
      · exact List.mem_cons_of_mem _ (ih h')

/-- Every collected scope candidate is a non-control-flow function line, with
    its recorded text equal to the document line. -/
theorem collectFunctionLines_inv (d : Document) (pos : Pos) :
    ∀ c ∈ collectFunctionLines d pos,
      isControlFlowLine c.2 = false ∧ isFunctionLine c.2 = true ∧
        c.2 = d.lineAt c.1 := by
  intro c hc
  refine foldl_preserve_any
    (fun c : Nat × Str => isControlFlowLine c.2 = false ∧ isFunctionLine c.2 = true ∧
      c.2 = d.lineAt c.1) _ ?_ _ _ (by simp) c (stableSortBy_mem hc)
  intro st lineNum hst c hc
  dsimp only at hc
  by_cases h1 : isControlFlowLine (d.lineAt lineNum) = true
  · rw [if_pos h1] at hc; exact hst c hc
  · rw [if_neg h1] at hc
    by_cases h2 : isFunctionLine (d.lineAt lineNum) = true
    · rw [if_pos h2] at hc
      rcases List.mem_append.mp hc with h | h
      · exact hst c h
      · have := List.mem_singleton.mp h
        rw [this]
        exact ⟨by simpa using h1, h2, rfl⟩
    · rw [if_neg h2] at hc; exact hst c hc

/-- A resolved declaration range starts at column 0 of its declaration
    line. -/
theorem getFunctionRangeByLine_start {d : Document} {line : Nat} {r : Range}
    (h : getFunctionRangeByLine d line = some r) : r.start = ⟨line, 0⟩ := by
  unfold getFunctionRangeByLine at h
  rcases hob : findOpenBracePos d line with _ | obp
  · rw [hob] at h
    dsimp only at h
    split at h
    · exact (Option.some.injEq .. ▸ h).symm ▸ rfl
    · have := List.exists_of_findSome?_eq_some h
      obtain ⟨i, _, hi⟩ := this
      split at hi
      · split at hi
        · simp only [Option.some.injEq] at hi
          rw [← hi]
        · exact absurd hi (by simp)
      · exact absurd hi (by simp)
  · rw [hob] at h
    dsimp only at h
    rcases hsc : scanClose (d.getText.drop (obp + 1)) (obp + 1) 1 with _ | e
    · rw [hsc] at h; exact absurd h (by simp)
    · rw [hsc] at h
      simp only [Option.some.injEq] at h
      rw [← h]

/-- C5.  During upward candidate collection, a line matching any control-flow
    pattern is excluded outright — even when it also matches a declaration
    pattern — so every candidate line matches a function pattern and no
    control-flow pattern, and a scope resolved in the brace-language branch
    starts at a candidate line that matches no control-flow pattern. -/
theorem scope_excludes_control_flow (d : Document) (pos : Pos) :
    (∀ c ∈ collectFunctionLines d pos,
      isControlFlowLine c.2 = false ∧ isFunctionLine c.2 = true) ∧
    (∀ r : Range, isTsFamily d.languageId = true →
      getCurrentFunctionOrClassRange d pos = some r →
      isControlFlowLine (d.lineAt r.start.line) = false) := by
  constructor
  · intro c hc
    exact ⟨(collectFunctionLines_inv d pos c hc).1,
      (collectFunctionLines_inv d pos c hc).2.1⟩
  · intro r hts hr
    unfold getCurrentFunctionOrClassRange at hr
    rw [if_pos hts] at hr
    obtain ⟨c, hc, hfc⟩ := List.exists_of_findSome?_eq_some hr
    rcases hgr : getFunctionRangeByLine d c.1 with _ | r'
    · rw [hgr] at hfc; exact absurd hfc (by simp)
    · rw [hgr] at hfc
      have hr2 : r' = r := by
        dsimp only at hfc
        by_cases hp : positionInRange pos r' = true
        · rw [if_pos hp] at hfc; simpa using hfc
        · rw [if_neg hp] at hfc; exact absurd hfc (by simp)
      have hstart := getFunctionRangeByLine_start hgr
      have hinv := collectFunctionLines_inv d pos c hc
      rw [← hr2, hstart]
      dsimp only
      rw [← hinv.2.2]
      exact hinv.1

set_option maxRecDepth 10000 in
/-- C5 (witness).  The exclusion property applied to a concrete document
    whose scope resolves to the enclosing three-line function. -/
theorem scope_excludes_control_flow_witness :
    isControlFlowLine (demoScopeDoc.lineAt 0) = false ∧
      getCurrentFunctionOrClassRange demoScopeDoc ⟨1, 1⟩ =
        some ⟨⟨0, 0⟩, ⟨2, 1⟩⟩ := by
  refine ⟨?_, by decide⟩
  exact (scope_excludes_control_flow demoScopeDoc ⟨1, 1⟩).2
    ⟨⟨0, 0⟩, ⟨2, 1⟩⟩ (by decide) (by decide)

set_option maxRecDepth 10000 in
/-- C3 (counterexample).  On a document containing `import * as ns from 'm'`
    with symbol list `['ns.prop']`, the analyzer emits that namespace import,
    whose only bound name `ns` does not appear in the marker-stripped symbol
    list — refuting the claim that every emitted import binds a name present
    in the symbols. -/
theorem tsAnalyzeRelatedImports_cex :
    tsAnalyzeRelatedImports cexDocC3 ["ns.prop".data] =
      [mkNamespaceImport "ns".data "m".data] ∧
    importBoundNames (mkNamespaceImport "ns".data "m".data) = ["ns".data] ∧
    "ns".data ∉ ["ns.prop".data].map stripMarkers := by
  refine ⟨by decide, by decide, by decide⟩

set_option maxRecDepth 10000 in
/-- C7 (counterexample).  The parameter heuristic extracts the symbol `i*f`
    from the text `function (i*f)`; its raw form passes the keyword check, but
    stripping the priority/call markers yields the keyword `if`, refuting the
    claim that symbols are keyword-free after marker stripping. -/
theorem extractSymbols_stripped_keyword_cex :
    "i*f".data ∈ extractSymbolsFromText cexLineC7 "typescript".data [] false ∧
      isKeyword (stripMarkers "i*f".data) "typescript".data = true := by
  exact ⟨by decide, by decide⟩

/-- C9 (amended).  Exceptions thrown by any language-specific sub-analyzer
    are caught inside `performEnhancedAnalysis`: for a non-JS/TS language the
    analysis always returns a result, whose scope field is exactly the
    analyzer's value when both the structure and scope calls succeed and the
    empty default otherwise; and whenever the scope analyzer throws the
    analysis returns a result, with the global-scope sentinel as the scope
    for the JS/TS family. -/
theorem performEnhancedAnalysis_catches (impl : AnalyzerImpl) (d : Document)
    (pos : Pos) (bc bcur acur ac : Str) :
    (isTsFamily d.languageId = false →
      ∃ r, performEnhancedAnalysis impl d pos bc bcur acur ac = some r ∧
        r.currentScope =
          (match impl.analyzeCodeStructure d pos,
              impl.analyzeCurrentScope d pos with
            | .ok _, .ok s => s
            | _, _ => [])) ∧
    (impl.analyzeCurrentScope d pos = .error () →
      ∃ r, performEnhancedAnalysis impl d pos bc bcur acur ac = some r ∧
        (isTsFamily d.languageId = true →
          r.currentScope = "全局作用域".data)) := by
  constructor
  · intro hts
    unfold performEnhancedAnalysis
    dsimp only
    rw [hts]
    simp only [Bool.false_eq_true, if_false]
    rcases h1 : impl.analyzeCodeStructure d pos with u | cs
    all_goals try cases u
    · dsimp only
      refine ⟨_, rfl, ?_⟩
      repeat' split
      all_goals rfl
    · rcases h2 : impl.analyzeCurrentScope d pos with u | sc
      all_goals try cases u
      · dsimp only
        refine ⟨_, rfl, ?_⟩
        repeat' split
        all_goals rfl
      · rcases h3 : impl.analyzeRelatedImports d pos
            (analyzeNearbySymbols d pos bc ac) with u | ri
        all_goals try cases u
        · dsimp only
          refine ⟨_, rfl, ?_⟩
          repeat' split
          all_goals rfl
        · rcases h4 : impl.analyzeSyntaxContext d pos bcur acur with u | sx
          all_goals try cases u
          · dsimp only
            refine ⟨_, rfl, ?_⟩
            repeat' split
            all_goals rfl
          · dsimp only
            refine ⟨_, rfl, ?_⟩
            repeat' split
            all_goals rfl
  · intro herr
    unfold performEnhancedAnalysis
    dsimp only
    by_cases hts : isTsFamily d.languageId = true
    · rw [hts, herr]
      rw [if_pos rfl]
      dsimp only
      refine ⟨_, rfl, fun _ => ?_⟩
      repeat' split
      all_goals rfl
    · rw [Bool.not_eq_true] at hts
      rw [hts]
      simp only [Bool.false_eq_true, if_false]
      rcases h1 : impl.analyzeCodeStructure d pos with u | cs
      all_goals try cases u
      · dsimp only
        refine ⟨_, rfl, fun hcontra => ?_⟩
        cases hcontra
      · rw [herr]
        dsimp only
        refine ⟨_, rfl, fun hcontra => ?_⟩
        cases hcontra

/-- Glueing a dropped take onto the remaining drop restores the longer
    drop. -/
theorem take_drop_glue_aux (m : Str) (a b : Nat) (hab : a ≤ b) :
    (m.take b).drop a ++ m.drop b = m.drop a := by
  by_cases hl : a ≤ min b m.length
  · conv_rhs => rw [← List.take_append_drop b m]
    rw [List.drop_append_eq_append_drop]
    have h0 : a - (m.take b).length = 0 := by
      rw [List.length_take]; omega
    rw [h0, List.drop_zero]
  · have h1 : (m.take b).drop a = [] :=
      List.drop_eq_nil_of_le (by rw [List.length_take]; omega)
    have h2 : m.drop b = [] := List.drop_eq_nil_of_le (by omega)
    have h3 : m.drop a = [] := List.drop_eq_nil_of_le (by omega)
    rw [h1, h2, h3]; rfl

/-- Two adjacent take/drop windows over the same list concatenate to the
    enclosing window. -/
theorem take_drop_glue (l : Str) (a b c : Nat) (hab : a ≤ b) (hbc : b ≤ c) :
    (l.take b).drop a ++ (l.take c).drop b = (l.take c).drop a := by
  have hb : l.take b = (l.take c).take b := by
    rw [List.take_take, Nat.min_eq_left hbc]
  rw [hb]
  exact take_drop_glue_aux (l.take c) a b hab

/-- `textBetween` on a single line is the take/drop window. -/
theorem textBetween_base (d : Document) (p q : Pos) (h : q.line ≤ p.line) :
    textBetween d p q = ((d.lineAt p.line).take q.char).drop p.char := by
  unfold textBetween
  have h1 : q.line - p.line + 1 = 0 + 1 := by omega
  rw [h1]
  unfold textBetweenFuel
  rw [if_pos h]

/-- `textBetween` across lines peels off the first line and a newline. -/
theorem textBetween_unfold (d : Document) (p q : Pos) (h : p.line < q.line) :
    textBetween d p q =
      (d.lineAt p.line).drop p.char ++ '\n' ::
        textBetween d ⟨p.line + 1, 0⟩ q := by
  unfold textBetween
  have h1 : q.line - p.line + 1 = (q.line - (p.line + 1) + 1) + 1 := by omega
  rw [h1]
  conv_lhs => rw [textBetweenFuel]
  rw [if_neg (by omega)]

/-- Adjacent `textBetween` windows concatenate, for positions listed in
    document order. -/
theorem textBetween_glue (d : Document) :
    ∀ (k : Nat) (a b c : Pos), b.line - a.line = k → a.line ≤ b.line →
      b.line ≤ c.line → (a.line = b.line → a.char ≤ b.char) →
      (b.line = c.line → b.char ≤ c.char) →
      textBetween d a b ++ textBetween d b c = textBetween d a c := by
  intro k
  induction k with
  | zero =>
      intro a b c hk h1 h2 h3 h4
      have hab : a.line = b.line := by omega
      rcases Nat.lt_or_ge b.line c.line with hbc | hbc
      · rw [textBetween_base d a b (by omega), textBetween_unfold d b c hbc,
          textBetween_unfold d a c (by omega), hab]
        rw [← List.append_assoc]
        congr 1
        exact take_drop_glue_aux _ _ _ (h3 hab)
      · have hbc' : b.line = c.line := by omega
        rw [textBetween_base d a b (by omega),
          textBetween_base d b c (by omega),
          textBetween_base d a c (by omega), hab, hbc']
        exact take_drop_glue _ _ _ _ (h3 hab) (h4 hbc')
  | succ n ih =>
      intro a b c hk h1 h2 h3 h4
      have halt : a.line < b.line := by omega
      rw [textBetween_unfold d a b halt,
        textBetween_unfold d a c (by omega)]
      have htail := ih ⟨a.line + 1, 0⟩ b c
        (by show b.line - (a.line + 1) = n; omega)
        (by show a.line + 1 ≤ b.line; omega) h2
        (fun _ => Nat.zero_le _) h4
      rw [List.append_assoc, List.cons_append, htail]

/-- Dropping the first line of a document shifts `textBetweenFuel` down by
    one line. -/
theorem tbf_shift (l : Str) (L : List Str) (lang fn : Str) :
    ∀ (fuel : Nat) (p q : Pos),
      textBetweenFuel ⟨l :: L, lang, fn⟩ fuel ⟨p.line + 1, p.char⟩
          ⟨q.line + 1, q.char⟩ =
        textBetweenFuel ⟨L, lang, fn⟩ fuel p q := by
  intro fuel
  induction fuel with
  | zero =>
      intro p q
      simp [textBetweenFuel, Document.lineAt]
  | succ n ih =>
      intro p q
      by_cases h : q.line ≤ p.line
      · conv_lhs => rw [textBetweenFuel]
        conv_rhs => rw [textBetweenFuel]
        rw [if_pos (by show q.line + 1 ≤ p.line + 1; omega), if_pos h]
        simp [Document.lineAt]
      · conv_lhs => rw [textBetweenFuel]
        conv_rhs => rw [textBetweenFuel]
        rw [if_neg (by show ¬(q.line + 1 ≤ p.line + 1); omega), if_neg h]
        have := ih ⟨p.line + 1, 0⟩ q
        simp only [Document.lineAt, List.getD_cons_succ] at this ⊢
        rw [this]

/-- `textBetweenFuel` from the origin with exact fuel reads the whole
    joined line list. -/
theorem textBetween_full_aux :
    ∀ (L : List Str) (lang fn : Str), L ≠ [] →
      textBetweenFuel ⟨L, lang, fn⟩ L.length ⟨0, 0⟩
          ⟨L.length - 1, (L.getD (L.length - 1) []).length⟩ =
        joinSep ['\n'] L := by
  intro L
  induction L with
  | nil => intro lang fn h; exact absurd rfl h
  | cons l L ih =>
      intro lang fn _
      rcases L with _ | ⟨l2, L2⟩
      · simp [textBetweenFuel, Document.lineAt, joinSep]
      · have hq : ((l :: l2 :: L2).length - 1 : Nat) = (l2 :: L2).length :=
          rfl
        have hgd : (l :: l2 :: L2).getD ((l :: l2 :: L2).length - 1) [] =
            (l2 :: L2).getD ((l2 :: L2).length - 1) [] := by
          rw [hq]
          have h1 : (l2 :: L2).length = ((l2 :: L2).length - 1) + 1 := by
            simp
          conv_lhs => rw [h1]
          exact List.getD_cons_succ
        rw [hgd, hq]
        have hfuel : ((l :: l2 :: L2).length : Nat) = (l2 :: L2).length + 1 :=
          rfl
        rw [hfuel]
        conv_lhs => rw [textBetweenFuel]
        rw [if_neg (by show ¬((l2 :: L2).length ≤ (0 : Nat)); simp)]
        have hshift := tbf_shift l (l2 :: L2) lang fn ((l2 :: L2).length)
          ⟨0, 0⟩ ⟨(l2 :: L2).length - 1,
            ((l2 :: L2).getD ((l2 :: L2).length - 1) []).length⟩
        dsimp only at hshift ⊢
        have hL : ((l2 :: L2).length - 1) + 1 = (l2 :: L2).length := by simp
        rw [hL] at hshift
        rw [hshift, ih lang fn (by simp)]
        simp [Document.lineAt, joinSep]

/-- `textBetween` from the origin to the end position reads the whole
    document text. -/
theorem textBetween_full (L : List Str) (lang fn : Str) (h : L ≠ []) :
    textBetween ⟨L, lang, fn⟩ ⟨0, 0⟩ (Document.endPos ⟨L, lang, fn⟩) =
      Document.getText ⟨L, lang, fn⟩ := by
  have hend : Document.endPos ⟨L, lang, fn⟩ =
      ⟨L.length - 1, (L.getD (L.length - 1) []).length⟩ := by
    simp [Document.endPos, Document.lineCount, Document.lineAt]
  rw [hend]
  unfold textBetween
  have hf : (L.length - 1 : Nat) - (0 : Nat) + 1 = L.length := by
    have : L.length ≠ 0 := by
      intro hc
      exact h (List.length_eq_zero.mp hc)
    omega
  rw [hf]
  exact textBetween_full_aux L lang fn h

/-- A multi-line `textBetween` ends with the take of its final line. -/
theorem textBetween_last_suffix (d : Document) :
    ∀ (k : Nat) (p q : Pos), q.line - p.line = k → p.line < q.line →
      ∃ s, textBetween d p q = s ++ (d.lineAt q.line).take q.char := by
  intro k
  induction k with
  | zero => intro p q hk h; exact absurd hk (by omega)
  | succ n ih =>
      intro p q hk h
      rw [textBetween_unfold d p q h]
      by_cases h2 : p.line + 1 < q.line
      · obtain ⟨s, hs⟩ := ih ⟨p.line + 1, 0⟩ q
          (by show q.line - (p.line + 1) = n; omega) h2
        refine ⟨(d.lineAt p.line).drop p.char ++ '\n' :: s, ?_⟩
        rw [hs]
        simp
      · have hq : q.line = p.line + 1 := by omega
        rw [textBetween_base d ⟨p.line + 1, 0⟩ q
          (by show q.line ≤ p.line + 1; omega)]
        refine ⟨(d.lineAt p.line).drop p.char ++ ['\n'], ?_⟩
        rw [hq]
        simp

/-- Looking an analyzer up again right after a lookup returns the same
    analyzer and leaves the cache unchanged. -/
theorem getLanguageAnalyzer_stable (c : AnalyzerCache) (lang : Str) :
    getLanguageAnalyzer (getLanguageAnalyzer c lang).2 lang =
      getLanguageAnalyzer c lang := by
  unfold getLanguageAnalyzer
  rcases h : c.find? (fun pr => pr.1 == lang) with _ | pr
  · rw [h]
    dsimp only
    rw [List.find?_append, h]
    simp [List.find?]
  · rw [h]
    dsimp only
    rw [h]

/-- The cache returned by `getContextSt` is the one produced by the single
    `getLanguageAnalyzer` lookup. -/
theorem getContextSt_cache (ed : Editor) (cfg : EditorConfig)
    (c : AnalyzerCache) :
    (getContextSt ed cfg c).2 =
      (getLanguageAnalyzer c ed.document.languageId).2 := by
  unfold getContextSt performEnhancedAnalysisSt
  dsimp only
  split
  · rfl
  · split <;> rfl

/-- `getContextSt`'s result depends on the cache only through the analyzer
    kind the lookup yields. -/
theorem getContextSt_fst_congr (ed : Editor) (cfg : EditorConfig)
    (c c' : AnalyzerCache)
    (h : (getLanguageAnalyzer c ed.document.languageId).1 =
      (getLanguageAnalyzer c' ed.document.languageId).1) :
    (getContextSt ed cfg c).1 = (getContextSt ed cfg c').1 := by
  unfold getContextSt performEnhancedAnalysisSt
  dsimp only
  rw [h]
  split
  · rfl
  · split <;> rfl

/-- C6.  `getContext` is deterministic across repeated calls: re-running it
    on the same editor state and configuration, with the analyzer cache left
    by the first run, produces the same `ContextInfo` result. -/
theorem getContext_deterministic (ed : Editor) (cfg : EditorConfig)
    (cache : AnalyzerCache) :
    (getContextSt ed cfg (getContextSt ed cfg cache).2).1 =
      (getContextSt ed cfg cache).1 := by
  apply getContextSt_fst_congr
  rw [getContextSt_cache]
  rw [getLanguageAnalyzer_stable]

/-- C2 (amended).  In the whole-document branch of `getContext` (document
    text under 40000 characters), for a valid cursor position the returned
    record satisfies: `beforeCode ++ afterCode` is exactly the document
    text (so the two sides are contiguous with no gap and no duplication,
    without re-inserting the cursor line between them); `beforeCursor` and
    `afterCursor` split the cursor's line; `beforeCode` ends with
    `beforeCursor` and `afterCode` starts with `afterCursor`; and the two
    sides are not both empty when the document text is non-empty. -/
theorem getContext_reconstruction (ed : Editor) (cfg : EditorConfig)
    (cache : AnalyzerCache)
    (hline : ed.active.line < ed.document.lineCount)
    (hchar : ed.active.char ≤ (ed.document.lineAt ed.active.line).length)
    (hsmall : (ed.document.getText).length < 40000)
    (r : ContextInfo) (hr : (getContextSt ed cfg cache).1 = some r) :
    r.beforeCode ++ r.afterCode = ed.document.getText ∧
    r.beforeCursor ++ r.afterCursor = ed.document.lineAt ed.active.line ∧
    sEnds r.beforeCode r.beforeCursor = true ∧
    sStarts r.afterCode r.afterCursor = true ∧
    (ed.document.getText ≠ [] → ¬(r.beforeCode = [] ∧ r.afterCode = [])) := by
  rcases ed with ⟨d, pos⟩
  rcases d with ⟨L, lang, fn⟩
  dsimp only at hline hchar hsmall hr ⊢
  set d : Document := ⟨L, lang, fn⟩ with hd
  unfold getContextSt at hr
  dsimp only at hr
  rw [if_pos hsmall] at hr
  rw [Option.map_eq_some'] at hr
  obtain ⟨e, he, hre⟩ := hr
  subst hre
  unfold assembleContext
  dsimp only
  have hcount : d.lineCount = L.length := rfl
  have hLne : L ≠ [] := by
    intro hc
    have hz : d.lineCount = 0 := by rw [hcount, hc]; rfl
    omega
  have hle0 : Pos.le ⟨0, 0⟩ pos = true := by
    simp [Pos.le]
    omega
  have hqend : (⟨d.lineCount - 1,
      (d.lineAt (d.lineCount - 1)).length⟩ : Pos) = Document.endPos d := rfl
  have hle1 : Pos.le pos (Document.endPos d) = true := by
    rcases Nat.lt_or_ge pos.line (L.length - 1) with h | h
    · simp [Pos.le, Document.endPos, hcount]
      omega
    · have hpl : pos.line = L.length - 1 := by
        rw [hcount] at hline
        omega
      simp [Pos.le, Document.endPos, hcount, hpl]
      rw [← hpl]
      exact hchar
  have hB : d.rangeText ⟨0, 0⟩ pos = textBetween d ⟨0, 0⟩ pos := by
    unfold Document.rangeText Range.mk'
    rw [if_pos hle0]
  have hA : d.rangeText pos (Document.endPos d) =
      textBetween d pos (Document.endPos d) := by
    unfold Document.rangeText Range.mk'
    rw [if_pos hle1]
  have hglue : textBetween d ⟨0, 0⟩ pos ++
      textBetween d pos (Document.endPos d) =
      textBetween d ⟨0, 0⟩ (Document.endPos d) := by
    apply textBetween_glue d pos.line ⟨0, 0⟩ pos (Document.endPos d)
    · show pos.line - 0 = pos.line; omega
    · show (0 : Nat) ≤ pos.line; omega
    · show pos.line ≤ d.lineCount - 1
      rw [hcount] at hline ⊢
      omega
    · intro _; exact Nat.zero_le _
    · intro hp
      have hp2 : pos.line = d.lineCount - 1 := hp
      show pos.char ≤ (d.lineAt (d.lineCount - 1)).length
      rw [← hp2]
      exact hchar
  have hfull : textBetween d ⟨0, 0⟩ (Document.endPos d) = d.getText :=
    textBetween_full L lang fn hLne
  have hmain : d.rangeText ⟨0, 0⟩ pos ++
      d.rangeText pos ⟨d.lineCount - 1,
        (d.lineAt (d.lineCount - 1)).length⟩ = d.getText := by
    rw [hqend, hB, hA, hglue, hfull]
  refine ⟨hmain, List.take_append_drop _ _, ?_, ?_, ?_⟩
  · unfold sEnds
    rw [hB, List.isSuffixOf_iff_suffix]
    rcases Nat.eq_zero_or_pos pos.line with h0 | h0
    · rw [textBetween_base d ⟨0, 0⟩ pos (by show pos.line ≤ 0; omega)]
      refine ⟨[], ?_⟩
      rw [List.nil_append, List.drop_zero]
      show (d.lineAt pos.line).take pos.char = (d.lineAt 0).take pos.char
      rw [h0]
    · obtain ⟨s, hs⟩ := textBetween_last_suffix d pos.line ⟨0, 0⟩ pos
        (by show pos.line - 0 = pos.line; omega) (by show 0 < pos.line; omega)
      exact ⟨s, hs.symm⟩
  · unfold sStarts
    rw [hqend, hA, List.isPrefixOf_iff_prefix]
    rcases Nat.lt_or_ge pos.line (d.lineCount - 1) with h | h
    · rw [textBetween_unfold d pos (Document.endPos d) h]
      exact ⟨'\n' :: textBetween d ⟨pos.line + 1, 0⟩ (Document.endPos d), rfl⟩
    · have hpl : pos.line = d.lineCount - 1 := by
        rw [hcount] at hline h ⊢
        omega
      rw [textBetween_base d pos (Document.endPos d)
        (by show d.lineCount - 1 ≤ pos.line; omega)]
      refine ⟨[], ?_⟩
      rw [List.append_nil]
      show (d.lineAt pos.line).drop pos.char =
        ((d.lineAt pos.line).take ((d.lineAt (d.lineCount - 1)).length)).drop
          pos.char
      rw [← hpl, List.take_length]
  · intro hne hboth
    rw [hboth.1, hboth.2] at hmain
    exact hne hmain.symm

/-- Closed witness for `getContext_reconstruction` at a concrete two-line
    document with the cursor inside the first line. -/
theorem getContext_reconstruction_witness :
    ∃ r, (getContextSt ⟨cexDocC2, ⟨0, 1⟩⟩ defaultCfg []).1 = some r ∧
      r.beforeCode ++ r.afterCode = cexDocC2.getText := by
  refine ⟨_, rfl, ?_⟩
  exact (getContext_reconstruction ⟨cexDocC2, ⟨0, 1⟩⟩ defaultCfg []
    (by decide) (by decide) (by decide) _ rfl).1

set_option maxRecDepth 10000 in
/-- C2 (counterexample).  For the document `ab\ncd` with the cursor at
    `(0, 1)`, `beforeCode ++ (beforeCursor ++ afterCursor) ++ afterCode`
    evaluates to `aabb\ncd`, which duplicates text and is not a slice of
    the 5-character document text — re-inserting the cursor line between
    `beforeCode` and `afterCode` double-counts it. -/
theorem getContext_reconstruction_cex :
    ((getContextSt ⟨cexDocC2, ⟨0, 1⟩⟩ defaultCfg []).1.map fun r =>
      r.beforeCode ++ (r.beforeCursor ++ r.afterCursor) ++ r.afterCode) =
        some "aabb\ncd".data ∧
    ¬ ∃ s t, s ++ "aabb\ncd".data ++ t = cexDocC2.getText := by
  constructor
  · decide
  · intro ⟨s, t, h⟩
    have hlen := congrArg List.length h
    simp [cexDocC2, Document.getText, joinSep] at hlen
    omega

/-- Closed witness for `performEnhancedAnalysis_catches`: with an
    always-throwing analyzer on a small Python document, the analysis
    returns a result whose scope field is the empty default. -/
theorem performEnhancedAnalysis_catches_witness :
    ∃ r, performEnhancedAnalysis throwImpl cexDocC9 ⟨1, 5⟩
        "import os\n".data [] [] [] = some r ∧ r.currentScope = [] := by
  obtain ⟨r, hr, hs⟩ :=
    (performEnhancedAnalysis_catches throwImpl cexDocC9 ⟨1, 5⟩
      "import os\n".data [] [] []).1 (by decide)
  exact ⟨r, hr, hs⟩

set_option maxRecDepth 10000 in
/-- C9 (counterexample).  With an always-throwing analyzer on a Python
    document whose prefix contains `import os`, the imports sub-analysis
    throws (twice), yet the returned `relatedImports` is the non-empty list
    produced by the generic fallback — the affected field does not keep an
    empty/default value. -/
theorem performEnhancedAnalysis_default_cex :
    ∃ r, performEnhancedAnalysis throwImpl cexDocC9 ⟨1, 5⟩
        "import os\n".data [] [] [] = some r ∧
      r.relatedImports = ["import os".data] := by
  exact ⟨_, rfl, by decide⟩

end GCL
